import Mathlib

/-! # DCCAdmin: the process supervisor of `src/dccAdmin/main.c`

A shallow embedding of the supervisor's registry (`processes`, `process_count`)
and of the functions that read and write it, followed by the properties proved
about them.

Modelling conventions.

* The global array `processes[MAX_PROCESSES]` together with `process_count` is
  the list of its first `process_count` elements; `processes[i]` is the `i`-th
  element of that list and `process_count` its length.
* `pid_t`, `time_t` and `int` values are mathematical integers; none of the
  modelled arithmetic can overflow (`difftime` of two clock readings is their
  difference).
* Everything the supervisor does to the outside world (a `kill`, a `fork`, a
  `printf`, an `exit`) is recorded, in program order, in a trace of `Event`s.
* What the operating system supplies (the return value of `fork`, the reading
  of `time(NULL)`, the queue behind `waitpid`) is an explicit argument.
-/

namespace DCCAdmin

/-! ## Constants -/

/-- The `MAX_PROCESSES` constant of main.c. -/
def MAX_PROCESSES : Nat := 10

/-- The `MAX_EXECUTABLE_LEN` constant of main.c. -/
def MAX_EXECUTABLE_LEN : Nat := 256

/-- Signal number of `SIGINT` (signal.h, Linux). -/
def SIGINT : Int := 2

/-- Signal number of `SIGKILL` (signal.h, Linux). -/
def SIGKILL : Int := 9

/-- Signal number of `SIGTERM` (signal.h, Linux). -/
def SIGTERM : Int := 15

/-! ## Data model -/

/-- The `ProcessInfo` struct of main.c. -/
structure ProcessInfo where
  pid : Int
  executable : List Char
  start_time : Int
  exit_code : Int
  signal_value : Int
  terminated : Bool
  timeout_sent : Bool
deriving DecidableEq, Repr

/-- The lines the supervisor prints, one constructor per `printf`/`perror` of main.c. -/
inductive Line where
  | missing_executable
  | missing_timeout
  | nonpositive_timeout
  | unknown_command (name : List Char)
  | max_processes
  | fork_error
  | started (pid : Int)
  | info_title
  | info_header
  | info_row (pid : Int) (executable : List Char) (elapsed exit_code signal_value : Int)
  | no_active
  | timeout_no_active
  | waiting (timeout_secs : Int)
  | timeout_done
  | stats (pid : Int) (executable : List Char) (elapsed exit_code signal_value : Int)
  | quitting
  | finished
  | time_max_reached (pid : Int) (executable : List Char) (time_max : Int)
  | reaped (pid : Int) (executable : List Char)
  | sigint_received
deriving DecidableEq, Repr

/-- The memory image of the child forked by `terminate_process`: its private copy
of `processes` as it was at the `fork`, and the `index` it will look at. -/
structure Child where
  processes : List ProcessInfo
  index : Nat
deriving DecidableEq, Repr

/-- What the supervisor does to the outside world. -/
inductive Event where
  /-- A call `kill(pid, signal)`. -/
  | kill (pid signal : Int)
  /-- The call `fork()` of `start_process`, with the value it returned. -/
  | fork (result : Int)
  /-- The call `execvp(executable, args)` (only ever reached in a forked child). -/
  | execvp (executable : List Char) (args : List (List Char))
  /-- The `fork()` of `terminate_process`: a child that sleeps 5 seconds and then
  runs `escalation_child` on its own memory image. -/
  | escalation (child : Child)
  | print (line : Line)
  | exit (status : Int)
deriving DecidableEq, Repr

/-- The supervisor's registry together with the events emitted so far. -/
structure Sup where
  processes : List ProcessInfo
  trace : List Event
deriving DecidableEq, Repr

/-- Run `f` on the registry of `s` and append what it emits. -/
def Sup.andThen (s : Sup) (f : List ProcessInfo → Sup) : Sup :=
  ⟨(f s.processes).processes, s.trace ++ (f s.processes).trace⟩

/-- Append one event. -/
def Sup.emit (s : Sup) (e : Event) : Sup :=
  ⟨s.processes, s.trace ++ [e]⟩

/-- The C loop `for (int i = start; i < start + count; i++) body(i)`, threading
the state through the iterations. -/
def for_loop {σ : Type} (body : Nat → σ → σ) : Nat → Nat → σ → σ
  | _, 0, s => s
  | i, k + 1, s => for_loop body (i + 1) k (body i s)

/-- The signals sent in a trace, as `(pid, signal)` pairs in order. -/
def kills (t : List Event) : List (Int × Int) :=
  t.filterMap (fun e => match e with
    | Event.kill pid signal => some (pid, signal)
    | _ => none)

/-- The escalation children forked in a trace. -/
def escalations (t : List Event) : List Child :=
  t.filterMap (fun e => match e with
    | Event.escalation child => some child
    | _ => none)

/-- The return values of the `fork()` calls of `start_process` in a trace. -/
def forks (t : List Event) : List Int :=
  t.filterMap (fun e => match e with
    | Event.fork result => some result
    | _ => none)

/-- The lines printed in a trace. -/
def prints (t : List Event) : List Line :=
  t.filterMap (fun e => match e with
    | Event.print line => some line
    | _ => none)

/-! ## Wait status macros (sys/wait.h) -/

/-- The macro `WTERMSIG(status)`, that is `status & 0x7f`. -/
def WTERMSIG (status : Nat) : Nat := status % 128

/-- The macro `WIFEXITED(status)`, that is `WTERMSIG(status) == 0`. -/
def WIFEXITED (status : Nat) : Bool := WTERMSIG status == 0

/-- The macro `WEXITSTATUS(status)`, that is `(status & 0xff00) >> 8`. -/
def WEXITSTATUS (status : Nat) : Nat := (status / 256) % 256

/-- The macro `WIFSIGNALED(status)`, that is
`((signed char) ((status & 0x7f) + 1) >> 1) > 0`: the low seven bits are
neither 0 (exited) nor 0x7f (stopped). -/
def WIFSIGNALED (status : Nat) : Bool :=
  decide (1 ≤ WTERMSIG status) && decide (WTERMSIG status ≤ 126)

/-! ## `start_process` -/

/-- The function `start_process` of main.c, seen from the process that called it;
`fork_result` is what `fork()` returns if it is reached and `now` is `time(NULL)`.
In the supervisor `fork_result` is negative or the pid of the new child; with
`fork_result = 0` the caller is that child, which goes on to `execvp` and never
touches the supervisor's registry. -/
def start_process (processes : List ProcessInfo) (executable : List Char)
    (args : List (List Char)) (fork_result now : Int) : Sup :=
  if processes.length ≥ MAX_PROCESSES then
    ⟨processes, [Event.print Line.max_processes]⟩
  else if fork_result < 0 then
    ⟨processes, [Event.fork fork_result, Event.print Line.fork_error]⟩
  else if fork_result = 0 then
    ⟨processes, [Event.fork fork_result, Event.execvp executable args]⟩
  else
    ⟨processes ++ [{ pid := fork_result
                     executable := executable.take (MAX_EXECUTABLE_LEN - 1)
                     start_time := now
                     terminated := false
                     timeout_sent := false
                     exit_code := -1
                     signal_value := -1 }],
      [Event.fork fork_result, Event.print (Line.started fork_result)]⟩

/-! ## `sigchld_handler` -/

/-- The body of the `if (processes[i].pid == pid)` of `sigchld_handler`, on the
entry it found. -/
def reap_entry (p : ProcessInfo) (status : Nat) : ProcessInfo :=
  let p := { p with terminated := true }
  if WIFEXITED status then
    { p with exit_code := (WEXITSTATUS status : Int), signal_value := -1 }
  else if WIFSIGNALED status then
    { p with exit_code := -1, signal_value := (WTERMSIG status : Int) }
  else p

/-- The inner `for` loop of `sigchld_handler` from index `i` with `k` iterations
left: it stops (`break`) at the first entry whose pid is `pid`. -/
def sigchld_scan (pid : Int) (status : Nat) : Nat → Nat → Sup → Sup
  | _, 0, s => s
  | i, k + 1, s =>
    match s.processes.get? i with
    | some p =>
      if p.pid = pid then
        ⟨s.processes.set i (reap_entry p status),
          s.trace ++ [Event.print (Line.reaped pid p.executable)]⟩
      else sigchld_scan pid status (i + 1) k s
    | none => s

/-- The function `sigchld_handler` of main.c. `pending` is the queue of
terminated children that `waitpid(-1, &status, WNOHANG)` reports, one
`(pid, status)` per call; with the queue empty `waitpid` returns a value that
is not positive and the `while` loop ends. The result is the registry with the
trace, and what is left of the queue. -/
def sigchld_handler (processes : List ProcessInfo) :
    List (Int × Nat) → Sup × List (Int × Nat)
  | [] => (⟨processes, []⟩, [])
  | (pid, status) :: rest =>
    if pid > 0 then
      let s := sigchld_scan pid status 0 processes.length ⟨processes, []⟩
      let r := sigchld_handler s.processes rest
      (⟨r.1.processes, s.trace ++ r.1.trace⟩, r.2)
    else (⟨processes, []⟩, (pid, status) :: rest)

/-! ## `terminate_process` and the child it forks -/

/-- An assignment to fields of `processes[i]`. -/
def assign (processes : List ProcessInfo) (i : Nat) (f : ProcessInfo → ProcessInfo) :
    List ProcessInfo :=
  match processes.get? i with
  | some p => processes.set i (f p)
  | none => processes

/-- The function `terminate_process` of main.c. The `fork()` is taken to succeed;
the child it creates gets a copy of the supervisor's memory as it is at that
point, that is after `signal_value` was written. -/
def terminate_process (processes : List ProcessInfo) (index : Nat) (signal : Int) : Sup :=
  match processes.get? index with
  | some p =>
    if !p.terminated then
      let processes1 := assign processes index (fun q => { q with signal_value := signal })
      ⟨processes1, Event.kill p.pid signal ::
        (if signal = SIGTERM then [Event.escalation ⟨processes1, index⟩] else [])⟩
    else ⟨processes, []⟩
  | none => ⟨processes, []⟩

/-- What the child forked by `terminate_process` does once its `sleep(5)` is over:
the branch `if (pid == 0)` of main.c, lines 308-314. The child reads its own
copy of `processes`; nothing in the child ever writes to that copy (the child
has no children of its own for `sigchld_handler` to reap). -/
def escalation_child (c : Child) : List Event :=
  match c.processes.get? c.index with
  | some p =>
    (if !p.terminated then [Event.kill p.pid SIGKILL] else []) ++ [Event.exit 0]
  | none => [Event.exit 0]

/-! ## `check_time_max` -/

/-- One iteration of the loop of `check_time_max`. -/
def check_time_max_body (now time_max : Int) (i : Nat) (s : Sup) : Sup :=
  match s.processes.get? i with
  | some p =>
    if !p.terminated && !p.timeout_sent then
      if now - p.start_time ≥ time_max then
        let s1 := (s.emit (Event.print (Line.time_max_reached p.pid p.executable time_max))).andThen
          (fun ps => terminate_process ps i SIGTERM)
        ⟨assign s1.processes i (fun q => { q with timeout_sent := true }), s1.trace⟩
      else s
    else s
  | none => s

/-- The function `check_time_max` of main.c; `now` is `time(NULL)` and `time_max`
the global of that name. -/
def check_time_max (processes : List ProcessInfo) (now time_max : Int) : Sup :=
  for_loop (check_time_max_body now time_max) 0 processes.length ⟨processes, []⟩

/-! ## `show_info` -/

/-- One iteration of the loop of `show_info`; the state is `any_process` and the
lines printed so far. -/
def show_info_body (processes : List ProcessInfo) (now : Int) (i : Nat)
    (st : Bool × List Event) : Bool × List Event :=
  match processes.get? i with
  | some p =>
    if !p.terminated then
      (true, st.2 ++ [Event.print
        (Line.info_row p.pid p.executable (now - p.start_time) p.exit_code p.signal_value)])
    else st
  | none => st

/-- The function `show_info` of main.c. -/
def show_info (processes : List ProcessInfo) (now : Int) : Sup :=
  let st := for_loop (show_info_body processes now) 0 processes.length
    (false, [Event.print Line.info_title, Event.print Line.info_header])
  ⟨processes, st.2 ++ (if !st.1 then [Event.print Line.no_active] else [])⟩

/-! ## `handle_timeout` -/

/-- The first loop of `handle_timeout` from index `i` with `k` iterations left:
the value of `any_process` when the loop ends or breaks. -/
def any_active : Nat → Nat → List ProcessInfo → Bool
  | _, 0, _ => false
  | i, k + 1, processes =>
    match processes.get? i with
    | some p => if !p.terminated then true else any_active (i + 1) k processes
    | none => false

/-- A `sleep` of the supervisor: `sigchld_handler` runs once for every element of
`during_sleep`, the batches of children that terminate meanwhile. -/
def sleep : Sup → List (List (Int × Nat)) → Sup
  | s, [] => s
  | s, pending :: rest => sleep (s.andThen (fun ps => (sigchld_handler ps pending).1)) rest

/-- One iteration of the second loop of `handle_timeout`. -/
def handle_timeout_body (now : Int) (i : Nat) (s : Sup) : Sup :=
  match s.processes.get? i with
  | some p =>
    if !p.terminated then
      (s.emit (Event.print
        (Line.stats p.pid p.executable (now - p.start_time) p.exit_code p.signal_value))).andThen
        (fun ps => terminate_process ps i SIGTERM)
    else s
  | none => s

/-- The function `handle_timeout` of main.c; `now` is the `time(NULL)` read after
the sleep. -/
def handle_timeout (processes : List ProcessInfo) (timeout_secs : Int)
    (during_sleep : List (List (Int × Nat))) (now : Int) : Sup :=
  if !any_active 0 processes.length processes then
    ⟨processes, [Event.print Line.timeout_no_active]⟩
  else
    let s := sleep ⟨processes, [Event.print (Line.waiting timeout_secs)]⟩ during_sleep
    for_loop (handle_timeout_body now) 0 s.processes.length (s.emit (Event.print Line.timeout_done))

/-! ## `handle_quit` -/

/-- One iteration of the first (`signal = SIGINT`) or second (`signal = SIGKILL`)
loop of `handle_quit`. -/
def broadcast_body (signal : Int) (i : Nat) (s : Sup) : Sup :=
  match s.processes.get? i with
  | some p =>
    if !p.terminated then
      ⟨assign s.processes i (fun q => { q with signal_value := signal }),
        s.trace ++ [Event.kill p.pid signal]⟩
    else s
  | none => s

/-- The first and second loop of `handle_quit`. -/
def broadcast (signal : Int) (s : Sup) : Sup :=
  for_loop (broadcast_body signal) 0 s.processes.length s

/-- The function `print_process_stats` of main.c; `now` is its `time(NULL)`. -/
def print_process_stats (process : ProcessInfo) (now : Int) : Line :=
  Line.stats process.pid process.executable (now - process.start_time)
    process.exit_code process.signal_value

/-- One iteration of the last loop of `handle_quit`; `clock i` is the time read by
the `i`-th call of `print_process_stats`. -/
def report_body (clock : Nat → Int) (i : Nat) (s : Sup) : Sup :=
  match s.processes.get? i with
  | some p => s.emit (Event.print (print_process_stats p (clock i)))
  | none => s

/-- The function `handle_quit` of main.c. -/
def handle_quit (processes : List ProcessInfo) (during_sleep : List (List (Int × Nat)))
    (clock : Nat → Int) : Sup :=
  let s1 := broadcast SIGINT ⟨processes, [Event.print Line.quitting]⟩
  let s2 := sleep s1 during_sleep
  let s3 := broadcast SIGKILL s2
  for_loop (report_body clock) 0 s3.processes.length (s3.emit (Event.print Line.finished))

/-- The function `sigint_handler` of main.c. -/
def sigint_handler (processes : List ProcessInfo) (during_sleep : List (List (Int × Nat)))
    (clock : Nat → Int) : Sup :=
  ((Sup.mk processes [Event.print Line.sigint_received]).andThen
    (fun ps => handle_quit ps during_sleep clock)).emit (Event.exit 0)

/-! ## `execute_command` -/

/-- The C library's `isspace`. -/
def isspace (c : Char) : Bool :=
  c.toNat == 32 || (decide (9 ≤ c.toNat) && decide (c.toNat ≤ 13))

/-- The C library's `isdigit`. -/
def isdigit (c : Char) : Bool :=
  decide (48 ≤ c.toNat) && decide (c.toNat ≤ 57)

/-- The value of the longest prefix of decimal digits, continuing from `acc`. -/
def digits_value : Int → List Char → Int
  | acc, [] => acc
  | acc, c :: rest =>
    if isdigit c then digits_value (acc * 10 + ((c.toNat - 48 : Nat) : Int)) rest else acc

/-- The conversion of a `long` to `int`: the value modulo 2^32, read as signed. -/
def to_int (v : Int) : Int :=
  (v + 2147483648) % 4294967296 - 2147483648

/-- The C library's `atoi`: leading white space is skipped, an optional sign is
read, then the longest run of decimal digits; anything that follows is ignored
and no digits at all give 0. A value that does not fit is undefined in C; the
model does what glibc does, `(int) strtol(s, NULL, 10)`. -/
def atoi (s : List Char) : Int :=
  let clamp (v : Int) : Int := max (-9223372036854775808) (min 9223372036854775807 v)
  match s.dropWhile isspace with
  | [] => 0
  | c :: rest =>
    if c.toNat = 45 then to_int (clamp (-(digits_value 0 rest)))
    else if c.toNat = 43 then to_int (clamp (digits_value 0 rest))
    else to_int (clamp (digits_value 0 (c :: rest)))

/-- What the operating system supplies to one call of `execute_command`. -/
structure Env where
  /-- The reading of `time(NULL)` in `start_process`, `show_info` and `handle_timeout`. -/
  now : Int
  /-- The return value of the `fork()` of `start_process`. -/
  fork_result : Int
  /-- The children that terminate during the `sleep` of `handle_timeout` or `handle_quit`. -/
  during_sleep : List (List (Int × Nat))
  /-- The readings of `time(NULL)` of the final report, one per line. -/
  clock : Nat → Int

/-- The function `execute_command` of main.c; `input` is the vector of words of
the line, `input[0]` being the command name. With an empty vector `main` does
not call it. -/
def execute_command (processes : List ProcessInfo) (input : List (List Char)) (env : Env) :
    Sup :=
  match input with
  | [] => ⟨processes, []⟩
  | command :: rest =>
    if command = "start".toList then
      match rest with
      | [] => ⟨processes, [Event.print Line.missing_executable]⟩
      | executable :: _ => start_process processes executable rest env.fork_result env.now
    else if command = "info".toList then
      show_info processes env.now
    else if command = "timeout".toList then
      match rest with
      | [] => ⟨processes, [Event.print Line.missing_timeout]⟩
      | arg :: _ =>
        let time := atoi arg
        if time ≤ 0 then ⟨processes, [Event.print Line.nonpositive_timeout]⟩
        else handle_timeout processes time env.during_sleep env.now
    else if command = "quit".toList then
      (handle_quit processes env.during_sleep env.clock).emit (Event.exit 0)
    else
      ⟨processes, [Event.print (Line.unknown_command command)]⟩

/-! ## The supervisor as a transition system -/

/-- The things that happen to the supervisor, each taken as one atomic step. -/
inductive Op where
  /-- The main loop calls `execute_command` on a line of input. -/
  | command (input : List (List Char)) (env : Env)
  /-- The main loop reaches `if (time_max > 0) check_time_max();`. -/
  | check (now time_max : Int)
  /-- The signal `SIGCHLD` arrives and `sigchld_handler` runs. -/
  | sigchld (pending : List (Int × Nat))
  /-- The signal `SIGINT` arrives and `sigint_handler` runs. -/
  | sigint (env : Env)
  /-- The first loop of `handle_quit` alone (signal `SIGINT` to every active entry). -/
  | shutdown_graceful
  /-- The second loop of `handle_quit` alone (signal `SIGKILL` to every active entry). -/
  | shutdown_forceful

/-- One step of the supervisor. An `exit` is recorded in the trace and does not
stop the model, so the registries the model reaches include all those the
program reaches. -/
def step (s : Sup) (op : Op) : Sup :=
  match op with
  | Op.command input env => s.andThen (fun ps => execute_command ps input env)
  | Op.check now time_max =>
    if time_max > 0 then s.andThen (fun ps => check_time_max ps now time_max) else s
  | Op.sigchld pending => s.andThen (fun ps => (sigchld_handler ps pending).1)
  | Op.sigint env => s.andThen (fun ps => sigint_handler ps env.during_sleep env.clock)
  | Op.shutdown_graceful => broadcast SIGINT s
  | Op.shutdown_forceful => broadcast SIGKILL s

/-- The supervisor at start-up: `process_count = 0`, nothing done yet. -/
def init : Sup := ⟨[], []⟩

/-- The supervisor after a sequence of steps from start-up. -/
def run (ops : List Op) : Sup := ops.foldl step init

/-! ## Loops that update entry `i` in iteration `i` -/

/-- The events of a loop whose iteration on entry `p`, with `pre` before it and
`rest` after it, emits `e pre p rest` and replaces `p` by `g p`. -/
def loop_trace (g : ProcessInfo → ProcessInfo)
    (e : List ProcessInfo → ProcessInfo → List ProcessInfo → List Event) :
    List ProcessInfo → List ProcessInfo → List Event
  | _, [] => []
  | pre, p :: rest => e pre p rest ++ loop_trace g e (pre ++ [g p]) rest

/-! ## Closed form of `check_time_max` -/

/-- The condition under which `check_time_max` signals an entry. -/
def due (now time_max : Int) (p : ProcessInfo) : Bool :=
  !p.terminated && !p.timeout_sent && decide (now - p.start_time ≥ time_max)

/-- What `check_time_max` does to one entry. -/
def check_entry (now time_max : Int) (p : ProcessInfo) : ProcessInfo :=
  if due now time_max p then { p with signal_value := SIGTERM, timeout_sent := true } else p

/-- What one iteration of `check_time_max` emits. -/
def check_events (now time_max : Int) (pre : List ProcessInfo) (p : ProcessInfo)
    (rest : List ProcessInfo) : List Event :=
  if due now time_max p then
    [Event.print (Line.time_max_reached p.pid p.executable time_max),
     Event.kill p.pid SIGTERM,
     Event.escalation ⟨pre ++ { p with signal_value := SIGTERM } :: rest, pre.length⟩]
  else []

/-! ## Closed forms of the loops of `handle_timeout` and `handle_quit` -/

/-- What a signal sent by the supervisor does to the entry it is sent for. -/
def signal_entry (signal : Int) (p : ProcessInfo) : ProcessInfo :=
  if p.terminated then p else { p with signal_value := signal }

/-- What one iteration of the second loop of `handle_timeout` emits. -/
def timeout_events (now : Int) (pre : List ProcessInfo) (p : ProcessInfo)
    (rest : List ProcessInfo) : List Event :=
  if p.terminated then []
  else
    [Event.print (Line.stats p.pid p.executable (now - p.start_time) p.exit_code p.signal_value),
     Event.kill p.pid SIGTERM,
     Event.escalation ⟨pre ++ { p with signal_value := SIGTERM } :: rest, pre.length⟩]

/-! ## Closed form of `show_info` -/

/-- The row `show_info` prints for an entry. -/
def info_row (now : Int) (p : ProcessInfo) : Line :=
  Line.info_row p.pid p.executable (now - p.start_time) p.exit_code p.signal_value

/-! ## Closed form of `sigchld_handler` -/

/-- The registry after the inner loop of `sigchld_handler`: the first entry
with the pid is the one rewritten. -/
def reap_first (pid : Int) (status : Nat) : List ProcessInfo → List ProcessInfo
  | [] => []
  | p :: rest =>
    if p.pid = pid then reap_entry p status :: rest else p :: reap_first pid status rest

/-- The registry after `sigchld_handler` has drained a queue. -/
def reap_all : List ProcessInfo → List (Int × Nat) → List ProcessInfo
  | processes, [] => processes
  | processes, (pid, status) :: rest =>
    if pid > 0 then reap_all (reap_first pid status processes) rest else processes

/-! ## How the registry evolves -/

/-- What identifies a launch: pid, stored executable name and start time. -/
def ident (p : ProcessInfo) : Int × List Char × Int :=
  (p.pid, p.executable, p.start_time)

/-- The entry `start_process` appends for a launch. -/
def fresh (l : Int × List Char × Int) : ProcessInfo :=
  { pid := l.1, executable := l.2.1, start_time := l.2.2
    terminated := false, timeout_sent := false, exit_code := -1, signal_value := -1 }

/-- A property `I` of entries that every write of the supervisor maintains, the
reaper's writes being those for wait statuses in `V`. -/
structure Stable (V : Nat → Prop) (I : ProcessInfo → Prop) : Prop where
  reap : ∀ p status, V status → I p → I (reap_entry p status)
  signal : ∀ p signal, p.terminated = false → I p → I { p with signal_value := signal }
  arm : ∀ p, p.terminated = false → I p → I { p with timeout_sent := true }

/-- Entry by entry, `qs` is `ps` with the same launches and `I` maintained. -/
def Evolve (I : ProcessInfo → Prop) (ps qs : List ProcessInfo) : Prop :=
  List.Forall₂ (fun p q => ident q = ident p ∧ (I p → I q)) ps qs

/-! ## Runs of the supervisor -/

/-- The wait statuses the reaper is handed in the course of a step. -/
def Op.statuses (op : Op) : List Nat :=
  match op with
  | Op.command _ env => env.during_sleep.flatten.map Prod.snd
  | Op.sigchld pending => pending.map Prod.snd
  | Op.sigint env => env.during_sleep.flatten.map Prod.snd
  | _ => []

/-- The launch a step performs when the registry holds `count` entries: a
`start` command is successful when the registry is not full and `fork` returned
the pid of a child; the launch is that pid, the executable name cut to
`MAX_EXECUTABLE_LEN - 1` characters, and the time. -/
def Op.launch (op : Op) (count : Nat) : List (Int × List Char × Int) :=
  match op with
  | Op.command (name :: executable :: _) env =>
    if name = "start".toList ∧ count < MAX_PROCESSES ∧ env.fork_result > 0 then
      [(env.fork_result, executable.take (MAX_EXECUTABLE_LEN - 1), env.now)]
    else []
  | _ => []

/-- The successful launches of a sequence of steps, in order, after those in `acc`. -/
def launches_from : List (Int × List Char × Int) → List Op → List (Int × List Char × Int)
  | acc, [] => acc
  | acc, op :: rest => launches_from (acc ++ op.launch acc.length) rest

/-- The successful launches of a run, in order. -/
def launches (ops : List Op) : List (Int × List Char × Int) :=
  launches_from [] ops

/-! ## The outcome recorded for a terminated entry -/

/-- A terminated entry records exactly one of exit code and signal: the other one
is the sentinel -1. -/
def Consistent (p : ProcessInfo) : Prop :=
  p.terminated = true →
    (p.exit_code ≠ -1 ∧ p.signal_value = -1) ∨ (p.exit_code = -1 ∧ p.signal_value ≠ -1)

/-! ## The final report -/

/-- Whether a line is one printed by `print_process_stats` (or by the second loop
of `handle_timeout`, which uses the same format). -/
def Line.is_stats : Line → Bool
  | Line.stats _ _ _ _ _ => true
  | _ => false

/-- The trace holds no line in the format of `print_process_stats`. -/
def NoStats (t : List Event) : Prop :=
  ∀ l ∈ prints t, Line.is_stats l = false

/-! ## Sample inputs -/

/-- An environment in which `fork` returns `pid`, the clock reads `now` and no
child terminates during a sleep. -/
def sample_env (pid now : Int) : Env :=
  ⟨now, pid, [], fun _ => now⟩

/-- The command `start sleep 10`, the child getting pid `pid` at time `now`. -/
def start_sleep (pid now : Int) : Op :=
  Op.command ["start".toList, "sleep".toList, "10".toList] (sample_env pid now)

/-- Ten successful launches. -/
def ten_starts : List Op :=
  [start_sleep 100 0, start_sleep 101 1, start_sleep 102 2, start_sleep 103 3,
   start_sleep 104 4, start_sleep 105 5, start_sleep 106 6, start_sleep 107 7,
   start_sleep 108 8, start_sleep 109 9]

/-! ## The reaper on registries without repeated pids -/

/-- What a drained queue does to an entry when no pid is repeated: the entry is
rewritten with the status queued for its pid, if there is one. -/
def reap_lookup (batch : List (Int × Nat)) (p : ProcessInfo) : ProcessInfo :=
  match batch.find? (fun n => n.1 == p.pid) with
  | some n => reap_entry p n.2
  | none => p

/-! ## Arguments `atoi` reads as 0 -/

/-- Whether the string, after leading white space and an optional sign, does not
go on with a decimal digit. -/
def no_number (s : List Char) : Bool :=
  match s.dropWhile isspace with
  | [] => true
  | c :: rest =>
    if c.toNat = 45 ∨ c.toNat = 43 then
      match rest with
      | [] => true
      | d :: _ => !isdigit d
    else !isdigit c

/-! ## More sample inputs -/

/-- A registry with one running entry, pid 100, started at time 0. -/
def one_running : List ProcessInfo :=
  [{ pid := 100, executable := "sleep".toList, start_time := 0, exit_code := -1,
     signal_value := -1, terminated := false, timeout_sent := false }]

/-- A registry whose only entry has been reaped after exiting with code 0. -/
def one_reaped : List ProcessInfo :=
  [{ pid := 100, executable := "sleep".toList, start_time := 0, exit_code := 0,
     signal_value := -1, terminated := true, timeout_sent := false }]

/-- The command `timeout 1` in an environment where the clock reads `now` after
the sleep and no child terminates meanwhile. -/
def timeout_one (now : Int) : Op :=
  Op.command ["timeout".toList, "1".toList] (sample_env 0 now)

/-- Two entries with different pids and a queue for them: 101 exited with code 3,
100 was killed by signal 9, and 555 is in no entry. -/
def two_running : List ProcessInfo :=
  [{ pid := 100, executable := "sleep".toList, start_time := 0, exit_code := -1,
     signal_value := -1, terminated := false, timeout_sent := false },
   { pid := 101, executable := "cat".toList, start_time := 2, exit_code := -1,
     signal_value := 15, terminated := false, timeout_sent := true }]

/-! # Lemmas and theorems -/

variable {V : Nat → Prop} {I : ProcessInfo → Prop}

/-! ## Array access on a split list -/

theorem get?_split (pre : List ProcessInfo) (p : ProcessInfo) (rest : List ProcessInfo) :
    (pre ++ p :: rest).get? pre.length = some p := by
  induction pre with
  | nil => rfl
  | cons a pre ih => simpa using ih

theorem set_split (pre : List ProcessInfo) (p q : ProcessInfo) (rest : List ProcessInfo) :
    (pre ++ p :: rest).set pre.length q = pre ++ q :: rest := by
  induction pre with
  | nil => rfl
  | cons a pre ih => simp

theorem assign_split (pre : List ProcessInfo) (p : ProcessInfo) (rest : List ProcessInfo)
    (f : ProcessInfo → ProcessInfo) :
    assign (pre ++ p :: rest) pre.length f = pre ++ f p :: rest := by
  unfold assign
  rw [get?_split]
  exact set_split pre p (f p) rest

theorem split_at_index (ps : List ProcessInfo) :
    ∀ (i : Nat) (p : ProcessInfo), ps.get? i = some p →
      ∃ pre rest, ps = pre ++ p :: rest ∧ pre.length = i := by
  induction ps with
  | nil => intro i p h; cases h
  | cons a tail ih =>
    intro i p h
    cases i with
    | zero =>
      have ha : a = p := by simpa using h
      exact ⟨[], tail, by rw [ha]; rfl, rfl⟩
    | succ i =>
      obtain ⟨pre, rest, h1, h2⟩ := ih i p (by simpa using h)
      exact ⟨a :: pre, rest, by rw [h1]; rfl, by simp [h2]⟩

theorem kills_append (a b : List Event) : kills (a ++ b) = kills a ++ kills b := by
  simp [kills]

theorem escalations_append (a b : List Event) :
    escalations (a ++ b) = escalations a ++ escalations b := by
  simp [escalations]

theorem forks_append (a b : List Event) : forks (a ++ b) = forks a ++ forks b := by
  simp [forks]

theorem prints_append (a b : List Event) : prints (a ++ b) = prints a ++ prints b := by
  simp [prints]

/-! ## Loops that update entry `i` in iteration `i` -/

theorem for_loop_pointwise (body : Nat → Sup → Sup) (g : ProcessInfo → ProcessInfo)
    (e : List ProcessInfo → ProcessInfo → List ProcessInfo → List Event)
    (hbody : ∀ pre p rest t,
      body pre.length ⟨pre ++ p :: rest, t⟩ = ⟨pre ++ g p :: rest, t ++ e pre p rest⟩)
    (todo : List ProcessInfo) :
    ∀ pre t, for_loop body pre.length todo.length ⟨pre ++ todo, t⟩ =
      ⟨pre ++ todo.map g, t ++ loop_trace g e pre todo⟩ := by
  induction todo with
  | nil => intro pre t; simp [for_loop, loop_trace]
  | cons p rest ih =>
    intro pre t
    have h := ih (pre ++ [g p]) (t ++ e pre p rest)
    simp only [List.length_append, List.length_singleton, List.append_assoc,
      List.singleton_append] at h
    simp only [List.length_cons, for_loop, hbody, h, List.map_cons, loop_trace,
      List.append_assoc]

theorem for_loop_whole (body : Nat → Sup → Sup) (g : ProcessInfo → ProcessInfo)
    (e : List ProcessInfo → ProcessInfo → List ProcessInfo → List Event)
    (hbody : ∀ pre p rest t,
      body pre.length ⟨pre ++ p :: rest, t⟩ = ⟨pre ++ g p :: rest, t ++ e pre p rest⟩)
    (s : Sup) :
    for_loop body 0 s.processes.length s =
      ⟨s.processes.map g, s.trace ++ loop_trace g e [] s.processes⟩ := by
  have h := for_loop_pointwise body g e hbody s.processes [] s.trace
  simpa using h

/-- A projection of the trace of a loop, when what each iteration contributes to
it depends on the entry alone. -/
theorem loop_trace_proj {β : Type} (π : List Event → List β)
    (hπ : ∀ a b, π (a ++ b) = π a ++ π b) (hnil : π [] = [])
    (g : ProcessInfo → ProcessInfo)
    (e : List ProcessInfo → ProcessInfo → List ProcessInfo → List Event)
    (k : ProcessInfo → List β) (hk : ∀ pre p rest, π (e pre p rest) = k p)
    (todo : List ProcessInfo) :
    ∀ pre, π (loop_trace g e pre todo) = (todo.map k).flatten := by
  induction todo with
  | nil => intro pre; simp [loop_trace, hnil]
  | cons p rest ih => intro pre; simp [loop_trace, hπ, hk, ih]

/-! ## `terminate_process` on entry `pre.length` -/

theorem terminate_process_split (pre : List ProcessInfo) (p : ProcessInfo)
    (rest : List ProcessInfo) (signal : Int) :
    terminate_process (pre ++ p :: rest) pre.length signal =
      if p.terminated then ⟨pre ++ p :: rest, []⟩
      else ⟨pre ++ { p with signal_value := signal } :: rest,
        Event.kill p.pid signal ::
          (if signal = SIGTERM then
            [Event.escalation ⟨pre ++ { p with signal_value := signal } :: rest, pre.length⟩]
           else [])⟩ := by
  unfold terminate_process
  rw [get?_split, assign_split]
  cases h : p.terminated <;> simp [h]

/-! ## Closed form of `check_time_max` -/

theorem check_time_max_body_split (now time_max : Int) (pre : List ProcessInfo)
    (p : ProcessInfo) (rest : List ProcessInfo) (t : List Event) :
    check_time_max_body now time_max pre.length ⟨pre ++ p :: rest, t⟩ =
      ⟨pre ++ check_entry now time_max p :: rest, t ++ check_events now time_max pre p rest⟩ := by
  unfold check_time_max_body check_entry check_events due
  simp only [get?_split]
  by_cases h1 : p.terminated = true
  · simp [h1]
  · by_cases h2 : p.timeout_sent = true
    · simp [h1, h2]
    · by_cases h3 : now - p.start_time ≥ time_max
      · simp only [Bool.not_eq_true] at h1 h2
        simp [h1, h2, h3, Sup.andThen, Sup.emit, terminate_process_split, assign_split]
      · simp [h1, h2, h3]

theorem check_time_max_eq (processes : List ProcessInfo) (now time_max : Int) :
    check_time_max processes now time_max =
      ⟨processes.map (check_entry now time_max),
        loop_trace (check_entry now time_max) (check_events now time_max) [] processes⟩ := by
  unfold check_time_max
  have h := for_loop_whole _ _ _ (check_time_max_body_split now time_max) ⟨processes, []⟩
  simpa using h

theorem check_time_max_kills (processes : List ProcessInfo) (now time_max : Int) :
    kills (check_time_max processes now time_max).trace =
      (processes.filter (due now time_max)).map (fun p => (p.pid, SIGTERM)) := by
  rw [check_time_max_eq]
  simp only
  rw [loop_trace_proj kills kills_append rfl _ _
    (fun p => if due now time_max p then [(p.pid, SIGTERM)] else [])]
  · induction processes with
    | nil => rfl
    | cons p rest ih =>
      by_cases h : due now time_max p = true <;> simp [h, List.filter_cons, ih]
  · intro pre p rest
    unfold check_events
    by_cases h : due now time_max p = true <;> simp [h, kills]

/-! ## Closed forms of the loops of `handle_timeout` and `handle_quit` -/

theorem handle_timeout_body_split (now : Int) (pre : List ProcessInfo)
    (p : ProcessInfo) (rest : List ProcessInfo) (t : List Event) :
    handle_timeout_body now pre.length ⟨pre ++ p :: rest, t⟩ =
      ⟨pre ++ signal_entry SIGTERM p :: rest, t ++ timeout_events now pre p rest⟩ := by
  unfold handle_timeout_body signal_entry timeout_events
  simp only [get?_split]
  cases h : p.terminated <;>
    simp [h, Sup.andThen, Sup.emit, terminate_process_split]

theorem broadcast_body_split (signal : Int) (pre : List ProcessInfo)
    (p : ProcessInfo) (rest : List ProcessInfo) (t : List Event) :
    broadcast_body signal pre.length ⟨pre ++ p :: rest, t⟩ =
      ⟨pre ++ signal_entry signal p :: rest,
        t ++ (fun _ q _ => if q.terminated then [] else [Event.kill q.pid signal]) pre p rest⟩ := by
  unfold broadcast_body signal_entry
  simp only [get?_split]
  cases h : p.terminated <;> simp [h, assign_split]

theorem report_body_split (clock : Nat → Int) (pre : List ProcessInfo)
    (p : ProcessInfo) (rest : List ProcessInfo) (t : List Event) :
    report_body clock pre.length ⟨pre ++ p :: rest, t⟩ =
      ⟨pre ++ id p :: rest,
        t ++ (fun a q _ => [Event.print (print_process_stats q (clock a.length))]) pre p rest⟩ := by
  unfold report_body
  simp only [get?_split]
  rfl

theorem broadcast_processes (signal : Int) (s : Sup) :
    (broadcast signal s).processes = s.processes.map (signal_entry signal) := by
  unfold broadcast
  rw [for_loop_whole _ _ _ (broadcast_body_split signal)]

theorem broadcast_kills (signal : Int) (s : Sup) :
    kills (broadcast signal s).trace = kills s.trace ++
      (s.processes.filter (fun p => !p.terminated)).map (fun p => (p.pid, signal)) := by
  unfold broadcast
  rw [for_loop_whole _ _ _ (broadcast_body_split signal)]
  simp only [kills_append]
  rw [loop_trace_proj kills kills_append rfl _ _
    (fun p => if p.terminated then [] else [(p.pid, signal)])]
  · congr 1
    induction s.processes with
    | nil => rfl
    | cons p rest ih => cases h : p.terminated <;> simp [h, List.filter_cons, ih]
  · intro pre p rest
    cases h : p.terminated <;> simp [h, kills]

/-- The first loop of `handle_timeout` finds an active entry exactly when there is one. -/
theorem any_active_split (todo : List ProcessInfo) :
    ∀ pre, any_active pre.length todo.length (pre ++ todo) =
      todo.any (fun p => !p.terminated) := by
  induction todo with
  | nil => intro pre; simp [any_active]
  | cons p rest ih =>
    intro pre
    have h := ih (pre ++ [p])
    simp only [List.length_append, List.length_singleton, List.append_assoc,
      List.singleton_append] at h
    simp only [List.length_cons, any_active, get?_split, h, List.any_cons]
    cases hp : p.terminated <;> simp [hp]

theorem any_active_eq (processes : List ProcessInfo) :
    any_active 0 processes.length processes = processes.any (fun p => !p.terminated) := by
  simpa using any_active_split processes []

/-! ## Closed form of `show_info` -/

theorem show_info_loop (now : Int) (todo : List ProcessInfo) :
    ∀ pre b t, for_loop (show_info_body (pre ++ todo) now) pre.length todo.length (b, t) =
      (b || todo.any (fun p => !p.terminated),
        t ++ ((todo.filter (fun p => !p.terminated)).map
          (fun p => Event.print (info_row now p)))) := by
  induction todo with
  | nil => intro pre b t; simp [for_loop]
  | cons p rest ih =>
    intro pre b t
    have h := ih (pre ++ [p])
    simp only [List.length_append, List.length_singleton, List.append_assoc,
      List.singleton_append] at h
    simp only [List.length_cons, for_loop, show_info_body, get?_split]
    cases hp : p.terminated <;> simp [hp, h, List.filter_cons, info_row]

/-! ## Closed form of `sigchld_handler` -/

theorem sigchld_scan_split (pid : Int) (status : Nat) (todo : List ProcessInfo) :
    ∀ pre t, (sigchld_scan pid status pre.length todo.length ⟨pre ++ todo, t⟩).processes =
      pre ++ reap_first pid status todo := by
  induction todo with
  | nil => intro pre t; simp [sigchld_scan, reap_first]
  | cons p rest ih =>
    intro pre t
    have h := ih (pre ++ [p]) t
    simp only [List.length_append, List.length_singleton, List.append_assoc,
      List.singleton_append] at h
    simp only [List.length_cons, sigchld_scan, get?_split, reap_first]
    by_cases hp : p.pid = pid
    · simp [hp, set_split]
    · simp [hp, h]

theorem sigchld_handler_processes (batch : List (Int × Nat)) :
    ∀ processes, (sigchld_handler processes batch).1.processes = reap_all processes batch := by
  induction batch with
  | nil => intro processes; rfl
  | cons n rest ih =>
    intro processes
    obtain ⟨pid, status⟩ := n
    have h := sigchld_scan_split pid status processes [] []
    simp only [List.length_nil, List.nil_append] at h
    by_cases hp : pid > 0
    · simp [sigchld_handler, reap_all, hp, ih, h]
    · simp [sigchld_handler, reap_all, hp]

theorem sigchld_handler_drains (batch : List (Int × Nat)) :
    ∀ processes, (∀ n ∈ batch, 0 < n.1) → (sigchld_handler processes batch).2 = [] := by
  induction batch with
  | nil => intro processes _; rfl
  | cons n rest ih =>
    intro processes hpos
    obtain ⟨pid, status⟩ := n
    have hp : pid > 0 := hpos (pid, status) (List.mem_cons_self _ _)
    simp only [sigchld_handler, hp, if_true]
    exact ih _ (fun n hn => hpos n (List.mem_cons_of_mem _ hn))

/-- The signals sent by `sigchld_handler`: none. -/
theorem sigchld_scan_kills (pid : Int) (status : Nat) (k : Nat) :
    ∀ i s, kills (sigchld_scan pid status i k s).trace = kills s.trace := by
  induction k with
  | zero => intro i s; rfl
  | succ k ih =>
    intro i s
    simp only [sigchld_scan]
    cases hg : s.processes.get? i with
    | none => rfl
    | some p =>
      by_cases hp : p.pid = pid
      · simp [hp, kills]
      · simp [hp, ih]

theorem sigchld_handler_kills (batch : List (Int × Nat)) :
    ∀ processes, kills (sigchld_handler processes batch).1.trace = [] := by
  induction batch with
  | nil => intro processes; rfl
  | cons n rest ih =>
    intro processes
    obtain ⟨pid, status⟩ := n
    by_cases hp : pid > 0
    · simp only [sigchld_handler, hp, if_true, kills_append, ih, sigchld_scan_kills]
      rfl
    · simp [sigchld_handler, hp, kills]

/-! ## The trace of `show_info` -/

theorem prints_map_print (f : ProcessInfo → Line) (l : List ProcessInfo) :
    prints (l.map (fun p => Event.print (f p))) = l.map f := by
  induction l with
  | nil => rfl
  | cons p rest ih =>
    have h : prints (Event.print (f p) :: rest.map (fun p => Event.print (f p))) =
        f p :: prints (rest.map (fun p => Event.print (f p))) := rfl
    simp only [List.map_cons, h, ih]

theorem show_info_eq (processes : List ProcessInfo) (now : Int) :
    show_info processes now =
      ⟨processes, [Event.print Line.info_title, Event.print Line.info_header] ++
        (processes.filter (fun p => !p.terminated)).map (fun p => Event.print (info_row now p)) ++
        (if processes.any (fun p => !p.terminated) then [] else [Event.print Line.no_active])⟩ := by
  unfold show_info
  have h := show_info_loop now processes [] false
    [Event.print Line.info_title, Event.print Line.info_header]
  simp only [List.length_nil, List.nil_append, Bool.false_or] at h
  rw [h]
  cases processes.any (fun p => !p.terminated) <;> simp

/-! ## How the registry evolves -/

theorem Evolve.refl (I : ProcessInfo → Prop) (ps : List ProcessInfo) : Evolve I ps ps := by
  induction ps with
  | nil => exact List.Forall₂.nil
  | cons p rest ih => exact List.Forall₂.cons ⟨rfl, id⟩ ih

theorem Evolve.trans {I : ProcessInfo → Prop} {ps qs rs : List ProcessInfo}
    (h1 : Evolve I ps qs) (h2 : Evolve I qs rs) : Evolve I ps rs := by
  unfold Evolve at *
  induction h1 generalizing rs with
  | nil => cases h2; exact List.Forall₂.nil
  | cons hpq _ ih =>
    cases h2 with
    | cons hqr h2 =>
      exact List.Forall₂.cons ⟨hqr.1.trans hpq.1, fun h => hqr.2 (hpq.2 h)⟩ (ih h2)

theorem Evolve.map {I : ProcessInfo → Prop} (g : ProcessInfo → ProcessInfo)
    (hg : ∀ p, ident (g p) = ident p ∧ (I p → I (g p))) (ps : List ProcessInfo) :
    Evolve I ps (ps.map g) := by
  induction ps with
  | nil => exact List.Forall₂.nil
  | cons p rest ih => exact List.Forall₂.cons (hg p) ih

theorem Evolve.length {I : ProcessInfo → Prop} {ps qs : List ProcessInfo}
    (h : Evolve I ps qs) : qs.length = ps.length :=
  (List.Forall₂.length_eq h).symm

theorem Evolve.ident {I : ProcessInfo → Prop} {ps qs : List ProcessInfo}
    (h : Evolve I ps qs) : qs.map ident = ps.map ident := by
  unfold Evolve at h
  induction h with
  | nil => rfl
  | cons hpq _ ih => simp [hpq.1, ih]

theorem Evolve.all {I : ProcessInfo → Prop} {ps qs : List ProcessInfo}
    (h : Evolve I ps qs) (hI : ∀ p ∈ ps, I p) : ∀ q ∈ qs, I q := by
  unfold Evolve at h
  induction h with
  | nil => intro q hq; cases hq
  | cons hpq _ ih =>
    intro q hq
    rcases List.mem_cons.mp hq with rfl | hq
    · exact hpq.2 (hI _ (List.mem_cons_self _ _))
    · exact ih (fun p hp => hI p (List.mem_cons_of_mem _ hp)) q hq

theorem reap_entry_ident (p : ProcessInfo) (status : Nat) :
    ident (reap_entry p status) = ident p := by
  unfold reap_entry ident
  cases WIFEXITED status <;> cases WIFSIGNALED status <;> rfl

theorem signal_entry_ident (signal : Int) (p : ProcessInfo) :
    ident (signal_entry signal p) = ident p := by
  unfold signal_entry ident
  cases p.terminated <;> rfl

theorem check_entry_ident (now time_max : Int) (p : ProcessInfo) :
    ident (check_entry now time_max p) = ident p := by
  unfold check_entry ident
  cases due now time_max p <;> rfl

theorem evolve_reap_first (hS : Stable V I) (pid : Int) (status : Nat) (hV : V status)
    (ps : List ProcessInfo) : Evolve I ps (reap_first pid status ps) := by
  induction ps with
  | nil => exact List.Forall₂.nil
  | cons p rest ih =>
    unfold reap_first
    by_cases hp : p.pid = pid
    · rw [if_pos hp]
      exact List.Forall₂.cons ⟨reap_entry_ident p status, hS.reap p status hV⟩
        (Evolve.refl I rest)
    · rw [if_neg hp]
      exact List.Forall₂.cons ⟨rfl, id⟩ ih

theorem evolve_reap_all (hS : Stable V I) (batch : List (Int × Nat)) :
    ∀ ps, (∀ n ∈ batch, V n.2) → Evolve I ps (reap_all ps batch) := by
  induction batch with
  | nil => intro ps _; exact Evolve.refl I ps
  | cons n rest ih =>
    intro ps hV
    obtain ⟨pid, status⟩ := n
    unfold reap_all
    by_cases hp : pid > 0
    · rw [if_pos hp]
      exact (evolve_reap_first hS pid status (hV (pid, status) (List.mem_cons_self _ _)) ps).trans
        (ih _ (fun n hn => hV n (List.mem_cons_of_mem _ hn)))
    · rw [if_neg hp]
      exact Evolve.refl I ps

theorem evolve_sleep (hS : Stable V I) (during_sleep : List (List (Int × Nat))) :
    ∀ s : Sup, (∀ b ∈ during_sleep, ∀ n ∈ b, V n.2) →
      Evolve I s.processes (sleep s during_sleep).processes := by
  induction during_sleep with
  | nil => intro s _; exact Evolve.refl I _
  | cons b rest ih =>
    intro s hV
    unfold sleep
    refine Evolve.trans ?_ (ih _ (fun b hb => hV b (List.mem_cons_of_mem _ hb)))
    simp only [Sup.andThen, sigchld_handler_processes]
    exact evolve_reap_all hS b _ (hV b (List.mem_cons_self _ _))

theorem evolve_signal_entry (hS : Stable V I) (signal : Int) (ps : List ProcessInfo) :
    Evolve I ps (ps.map (signal_entry signal)) := by
  refine Evolve.map _ (fun p => ⟨signal_entry_ident signal p, ?_⟩) ps
  intro hI
  unfold signal_entry
  split
  · exact hI
  · next h => exact hS.signal p signal (by simpa using h) hI

theorem evolve_check_time_max (hS : Stable V I) (ps : List ProcessInfo) (now time_max : Int) :
    Evolve I ps (check_time_max ps now time_max).processes := by
  rw [check_time_max_eq]
  refine Evolve.map _ (fun p => ⟨check_entry_ident now time_max p, ?_⟩) ps
  intro hI
  unfold check_entry
  cases h : due now time_max p
  · exact hI
  · have ht : p.terminated = false := by
      unfold due at h
      cases ht : p.terminated <;> simp_all
    exact hS.arm { p with signal_value := SIGTERM } ht (hS.signal p SIGTERM ht hI)

theorem handle_timeout_processes (ps : List ProcessInfo) (timeout_secs : Int)
    (during_sleep : List (List (Int × Nat))) (now : Int) :
    (handle_timeout ps timeout_secs during_sleep now).processes =
      if ps.any (fun p => !p.terminated) then
        (sleep ⟨ps, [Event.print (Line.waiting timeout_secs)]⟩ during_sleep).processes.map
          (signal_entry SIGTERM)
      else ps := by
  unfold handle_timeout
  rw [any_active_eq]
  cases h : ps.any (fun p => !p.terminated)
  · simp
  · simp only [Bool.not_true, if_true]
    have h2 := for_loop_whole _ _ _ (handle_timeout_body_split now)
      ((sleep ⟨ps, [Event.print (Line.waiting timeout_secs)]⟩ during_sleep).emit
        (Event.print Line.timeout_done))
    simp only [Sup.emit] at h2 ⊢
    simp [h2]

theorem evolve_handle_timeout (hS : Stable V I) (ps : List ProcessInfo) (timeout_secs : Int)
    (during_sleep : List (List (Int × Nat))) (now : Int)
    (hV : ∀ b ∈ during_sleep, ∀ n ∈ b, V n.2) :
    Evolve I ps (handle_timeout ps timeout_secs during_sleep now).processes := by
  rw [handle_timeout_processes]
  cases h : ps.any (fun p => !p.terminated)
  · exact Evolve.refl I ps
  · exact (evolve_sleep hS during_sleep ⟨ps, _⟩ hV).trans (evolve_signal_entry hS SIGTERM _)

theorem handle_quit_processes (ps : List ProcessInfo)
    (during_sleep : List (List (Int × Nat))) (clock : Nat → Int) :
    (handle_quit ps during_sleep clock).processes =
      (sleep (broadcast SIGINT ⟨ps, [Event.print Line.quitting]⟩)
        during_sleep).processes.map (signal_entry SIGKILL) := by
  unfold handle_quit
  have h := for_loop_whole _ _ _ (report_body_split clock)
    ((broadcast SIGKILL (sleep (broadcast SIGINT ⟨ps, [Event.print Line.quitting]⟩)
      during_sleep)).emit (Event.print Line.finished))
  simp only [Sup.emit] at h ⊢
  rw [h]
  simp [broadcast_processes]

theorem evolve_handle_quit (hS : Stable V I) (ps : List ProcessInfo)
    (during_sleep : List (List (Int × Nat))) (clock : Nat → Int)
    (hV : ∀ b ∈ during_sleep, ∀ n ∈ b, V n.2) :
    Evolve I ps (handle_quit ps during_sleep clock).processes := by
  rw [handle_quit_processes]
  refine Evolve.trans ?_ (evolve_signal_entry hS SIGKILL _)
  refine Evolve.trans ?_ (evolve_sleep hS during_sleep _ hV)
  rw [broadcast_processes]
  exact evolve_signal_entry hS SIGINT ps

/-! ## Runs of the supervisor -/

theorem flatten_statuses {during_sleep : List (List (Int × Nat))}
    (hV : ∀ st ∈ during_sleep.flatten.map Prod.snd, V st) :
    ∀ b ∈ during_sleep, ∀ n ∈ b, V n.2 := by
  intro b hb n hn
  apply hV
  exact List.mem_map.mpr ⟨n, List.mem_flatten.mpr ⟨b, hb, hn⟩, rfl⟩

theorem start_process_shape (ps : List ProcessInfo) (executable : List Char)
    (args : List (List Char)) (fork_result now : Int) :
    (start_process ps executable args fork_result now).processes =
      ps ++ (if ps.length < MAX_PROCESSES ∧ fork_result > 0 then
        [fresh (fork_result, executable.take (MAX_EXECUTABLE_LEN - 1), now)] else []) := by
  unfold start_process
  by_cases h1 : ps.length ≥ MAX_PROCESSES
  · have h1b : ¬ ps.length < MAX_PROCESSES := by omega
    simp [h1, h1b]
  · have h1b : ps.length < MAX_PROCESSES := by omega
    by_cases h2 : fork_result < 0
    · have h2b : ¬ fork_result > 0 := by omega
      simp [h1, h2, h2b]
    · by_cases h3 : fork_result = 0
      · simp [h1, h3]
      · have h3b : fork_result > 0 := by omega
        simp [h1, h2, h3, h3b, h1b, fresh]

/-- The function `start_process` announces a launch (the line with the new pid)
exactly when the registry is not full and `fork` returned the pid of a child,
which is when `Op.launch` counts one. -/
theorem start_process_announces_launch (ps : List ProcessInfo) (executable : List Char)
    (args : List (List Char)) (fork_result now : Int) :
    Line.started fork_result ∈ prints (start_process ps executable args fork_result now).trace ↔
      ps.length < MAX_PROCESSES ∧ fork_result > 0 := by
  unfold start_process
  by_cases h1 : ps.length ≥ MAX_PROCESSES
  · have h1b : ¬ ps.length < MAX_PROCESSES := by omega
    simp [h1, h1b, prints]
  · have h1b : ps.length < MAX_PROCESSES := by omega
    by_cases h2 : fork_result < 0
    · have h2b : ¬ fork_result > 0 := by omega
      simp [h1, h2, h2b, prints]
    · by_cases h3 : fork_result = 0
      · simp [h1, h3, prints]
      · have h3b : fork_result > 0 := by omega
        simp [h1, h2, h3, h3b, h1b, prints]

theorem execute_command_shape (hS : Stable V I) (ps : List ProcessInfo)
    (input : List (List Char)) (env : Env)
    (hV : ∀ st ∈ (Op.command input env).statuses, V st) :
    ∃ qs, Evolve I ps qs ∧ (execute_command ps input env).processes =
      qs ++ ((Op.command input env).launch ps.length).map fresh := by
  have hV2 := flatten_statuses hV
  unfold execute_command
  match input with
  | [] => exact ⟨ps, Evolve.refl I ps, by simp [Op.launch]⟩
  | [command] =>
    refine ⟨(execute_command ps [command] env).processes, ?_, by simp [Op.launch, execute_command]⟩
    unfold execute_command
    simp only
    split_ifs
    · exact Evolve.refl I ps
    · rw [show_info_eq]; exact Evolve.refl I ps
    · exact Evolve.refl I ps
    · exact evolve_handle_quit hS ps _ _ hV2
    · exact Evolve.refl I ps
  | command :: executable :: rest =>
    by_cases hc : command = "start".toList
    · refine ⟨ps, Evolve.refl I ps, ?_⟩
      simp only [hc, if_true, start_process_shape, Op.launch, true_and]
      split_ifs <;> simp
    · have hl : (Op.command (command :: executable :: rest) env).launch ps.length = [] := by
        simp only [Op.launch, hc, false_and, if_false]
      rw [hl]
      simp only [hc, if_false, List.map_nil, List.append_nil, exists_eq_right']
      split_ifs
      · rw [show_info_eq]; exact Evolve.refl I ps
      · exact Evolve.refl I ps
      · exact evolve_handle_timeout hS ps _ _ _ hV2
      · exact evolve_handle_quit hS ps _ _ hV2
      · exact Evolve.refl I ps

theorem step_shape (hS : Stable V I) (s : Sup) (op : Op) (hV : ∀ st ∈ op.statuses, V st) :
    ∃ qs, Evolve I s.processes qs ∧
      (step s op).processes = qs ++ (op.launch s.processes.length).map fresh := by
  cases op with
  | command input env => exact execute_command_shape hS s.processes input env hV
  | check now time_max =>
    refine ⟨(step s (Op.check now time_max)).processes, ?_, by simp [Op.launch]⟩
    unfold step
    simp only
    split_ifs
    · exact evolve_check_time_max hS s.processes now time_max
    · exact Evolve.refl I _
  | sigchld pending =>
    refine ⟨(step s (Op.sigchld pending)).processes, ?_, by simp [Op.launch]⟩
    simp only [step, Sup.andThen, sigchld_handler_processes]
    refine evolve_reap_all hS pending _ (fun n hn => hV n.2 ?_)
    exact List.mem_map.mpr ⟨n, hn, rfl⟩
  | sigint env =>
    refine ⟨(step s (Op.sigint env)).processes, ?_, by simp [Op.launch]⟩
    simp only [step, Sup.andThen, sigint_handler, Sup.emit]
    exact evolve_handle_quit hS s.processes _ _ (flatten_statuses hV)
  | shutdown_graceful =>
    refine ⟨(step s Op.shutdown_graceful).processes, ?_, by simp [Op.launch]⟩
    simp only [step, broadcast_processes]
    exact evolve_signal_entry hS SIGINT _
  | shutdown_forceful =>
    refine ⟨(step s Op.shutdown_forceful).processes, ?_, by simp [Op.launch]⟩
    simp only [step, broadcast_processes]
    exact evolve_signal_entry hS SIGKILL _

theorem launch_length_le (count : Nat) (op : Op) (h : count ≤ MAX_PROCESSES) :
    count + (op.launch count).length ≤ MAX_PROCESSES := by
  unfold Op.launch
  split
  · split_ifs with hc
    · simp only [List.length_singleton]; omega
    · simpa using h
  · simpa using h

/-- Every property that the supervisor's writes maintain holds of every entry in
every reachable registry, and the registry never holds more than
`MAX_PROCESSES` entries. -/
theorem foldl_step_invariant (hS : Stable V I) (hfresh : ∀ l, I (fresh l)) (ops : List Op) :
    ∀ s : Sup, (∀ op ∈ ops, ∀ st ∈ op.statuses, V st) →
      (∀ p ∈ s.processes, I p) → s.processes.length ≤ MAX_PROCESSES →
      (∀ p ∈ (ops.foldl step s).processes, I p) ∧
        (ops.foldl step s).processes.length ≤ MAX_PROCESSES := by
  induction ops with
  | nil => intro s _ hI hl; exact ⟨hI, hl⟩
  | cons op rest ih =>
    intro s hV hI hl
    obtain ⟨qs, hE, hq⟩ := step_shape hS s op (hV op (List.mem_cons_self _ _))
    refine ih (step s op) (fun o ho => hV o (List.mem_cons_of_mem _ ho)) ?_ ?_
    · intro p hp
      rw [hq] at hp
      rcases List.mem_append.mp hp with hp | hp
      · exact hE.all hI p hp
      · obtain ⟨l, _, rfl⟩ := List.mem_map.mp hp
        exact hfresh l
    · rw [hq, List.length_append, hE.length, List.length_map]
      exact launch_length_le _ op hl

theorem stable_trivial : Stable (fun _ => True) (fun _ => True) :=
  ⟨fun _ _ _ _ => trivial, fun _ _ _ _ => trivial, fun _ _ _ => trivial⟩

theorem fresh_ident (l : Int × List Char × Int) : ident (fresh l) = l := rfl

theorem step_ident (s : Sup) (op : Op) :
    (step s op).processes.map ident =
      s.processes.map ident ++ op.launch s.processes.length := by
  obtain ⟨qs, hE, hq⟩ := step_shape stable_trivial s op (fun _ _ => trivial)
  rw [hq, List.map_append, hE.ident, List.map_map]
  congr 1
  induction op.launch s.processes.length with
  | nil => rfl
  | cons l rest ih => simp [fresh_ident, ih]

theorem foldl_step_ident (ops : List Op) :
    ∀ s : Sup, (ops.foldl step s).processes.map ident =
      launches_from (s.processes.map ident) ops := by
  induction ops with
  | nil => intro s; rfl
  | cons op rest ih =>
    intro s
    simp only [List.foldl_cons, ih, step_ident, launches_from, List.length_map]

/-! ## The outcome recorded for a terminated entry -/

theorem reap_entry_consistent (p : ProcessInfo) (status : Nat)
    (h : WIFEXITED status = true ∨ WIFSIGNALED status = true) :
    Consistent (reap_entry p status) := by
  intro _
  by_cases h1 : WIFEXITED status = true
  · left
    simp only [reap_entry, h1, if_true]
    exact ⟨by omega, trivial⟩
  · have h2 : WIFSIGNALED status = true := by
      rcases h with h | h
      · exact absurd h h1
      · exact h
    have h1b : WIFEXITED status = false := by simpa using h1
    right
    simp only [reap_entry, h1b, h2, if_true, Bool.false_eq_true, if_false]
    exact ⟨trivial, by omega⟩

theorem stable_consistent :
    Stable (fun status => WIFEXITED status = true ∨ WIFSIGNALED status = true) Consistent where
  reap := fun p status h _ => reap_entry_consistent p status h
  signal := by intro p signal ht _ h; simp [ht] at h
  arm := by intro p ht _ h; simp [ht] at h

/-! ## The final report -/

theorem NoStats.append {a b : List Event} (ha : NoStats a) (hb : NoStats b) :
    NoStats (a ++ b) := by
  intro l hl
  rw [prints_append] at hl
  rcases List.mem_append.mp hl with h | h
  · exact ha l h
  · exact hb l h

theorem sigchld_scan_noStats (pid : Int) (status : Nat) (k : Nat) :
    ∀ i s, NoStats s.trace → NoStats (sigchld_scan pid status i k s).trace := by
  induction k with
  | zero => intro i s h; exact h
  | succ k ih =>
    intro i s h
    simp only [sigchld_scan]
    cases hg : s.processes.get? i with
    | none => exact h
    | some p =>
      by_cases hp : p.pid = pid
      · simp only [hp, if_true]
        refine h.append ?_
        intro l hl
        simp only [prints, List.filterMap_cons, List.filterMap_nil, List.mem_singleton] at hl
        subst hl
        rfl
      · simp only [hp, if_false]
        exact ih _ _ h

theorem sigchld_handler_noStats (batch : List (Int × Nat)) :
    ∀ processes, NoStats (sigchld_handler processes batch).1.trace := by
  induction batch with
  | nil => intro processes l hl; simp [sigchld_handler, prints] at hl
  | cons n rest ih =>
    intro processes
    obtain ⟨pid, status⟩ := n
    by_cases hp : pid > 0
    · simp only [sigchld_handler, hp, if_true]
      refine NoStats.append (sigchld_scan_noStats pid status _ 0 _ ?_) (ih _)
      intro l hl
      simp [prints] at hl
    · intro l hl
      simp [sigchld_handler, hp, prints] at hl

theorem sleep_noStats (during_sleep : List (List (Int × Nat))) :
    ∀ s : Sup, NoStats s.trace → NoStats (sleep s during_sleep).trace := by
  induction during_sleep with
  | nil => intro s h; exact h
  | cons b rest ih =>
    intro s h
    unfold sleep
    exact ih _ (h.append (sigchld_handler_noStats b _))

theorem broadcast_prints (signal : Int) (s : Sup) :
    prints (broadcast signal s).trace = prints s.trace := by
  unfold broadcast
  rw [for_loop_whole _ _ _ (broadcast_body_split signal)]
  simp only [prints_append]
  rw [loop_trace_proj prints prints_append rfl _ _ (fun _ => [])]
  · simp
  · intro pre p rest
    cases h : p.terminated <;> simp [h, prints]

theorem broadcast_noStats (signal : Int) (s : Sup) (h : NoStats s.trace) :
    NoStats (broadcast signal s).trace := by
  intro l hl
  rw [broadcast_prints] at hl
  exact h l hl

/-- The lines of the last loop of `handle_quit` over a registry `pre ++ todo`,
from entry `pre.length` on. -/
theorem report_loop_prints (clock : Nat → Int) (todo : List ProcessInfo) :
    ∀ pre : List ProcessInfo,
      prints (loop_trace id
        (fun a q _ => [Event.print (print_process_stats q (clock a.length))]) pre todo) =
      (todo.enumFrom pre.length).map (fun ip => print_process_stats ip.2 (clock ip.1)) := by
  induction todo with
  | nil => intro pre; rfl
  | cons p rest ih =>
    intro pre
    have h := ih (pre ++ [p])
    simp only [List.length_append, List.length_singleton] at h
    simp only [loop_trace, prints_append, id, h, List.enumFrom_cons, List.map_cons]
    rfl

theorem handle_quit_report (ps : List ProcessInfo) (during_sleep : List (List (Int × Nat)))
    (clock : Nat → Int) :
    (prints (handle_quit ps during_sleep clock).trace).filter Line.is_stats =
      (handle_quit ps during_sleep clock).processes.enum.map
        (fun ip => print_process_stats ip.2 (clock ip.1)) := by
  have hb : NoStats (broadcast SIGKILL (sleep (broadcast SIGINT
      ⟨ps, [Event.print Line.quitting]⟩) during_sleep)).trace := by
    refine broadcast_noStats _ _ (sleep_noStats _ _ (broadcast_noStats _ _ ?_))
    intro l hl
    simp only [prints, List.filterMap_cons, List.filterMap_nil, List.mem_singleton] at hl
    subst hl
    rfl
  rw [handle_quit_processes]
  unfold handle_quit
  have h := for_loop_whole _ _ _ (report_body_split clock)
    ((broadcast SIGKILL (sleep (broadcast SIGINT ⟨ps, [Event.print Line.quitting]⟩)
      during_sleep)).emit (Event.print Line.finished))
  simp only [Sup.emit] at h ⊢
  rw [h]
  simp only [prints_append, List.filter_append, report_loop_prints, List.length_nil,
    List.map_id, broadcast_processes]
  have h1 : List.filter Line.is_stats (prints (broadcast SIGKILL (sleep (broadcast SIGINT
      ⟨ps, [Event.print Line.quitting]⟩) during_sleep)).trace) = [] :=
    List.filter_eq_nil_iff.mpr (fun l hl => by simp [hb l hl])
  have h2 : List.filter Line.is_stats (prints [Event.print Line.finished]) = [] := rfl
  rw [h1, h2]
  simp only [List.nil_append, List.enum]
  apply List.filter_eq_self.mpr
  intro l hl
  obtain ⟨ip, _, rfl⟩ := List.mem_map.mp hl
  rfl

/-! ## The two ways into `handle_quit` -/

theorem execute_command_quit (ps : List ProcessInfo) (env : Env) :
    execute_command ps ["quit".toList] env =
      (handle_quit ps env.during_sleep env.clock).emit (Event.exit 0) := by
  simp [execute_command]

theorem filter_stats_emit_exit (t : List Event) :
    (prints (t ++ [Event.exit 0])).filter Line.is_stats = (prints t).filter Line.is_stats := by
  rw [prints_append]
  simp [prints]

/-! ## The reaper on registries without repeated pids -/

theorem reap_entry_pid (p : ProcessInfo) (status : Nat) : (reap_entry p status).pid = p.pid :=
  congrArg Prod.fst (reap_entry_ident p status)

theorem reap_first_eq_map (pid : Int) (status : Nat) (ps : List ProcessInfo)
    (h : (ps.map (fun p => p.pid)).Nodup) :
    reap_first pid status ps =
      ps.map (fun p => if p.pid = pid then reap_entry p status else p) := by
  induction ps with
  | nil => rfl
  | cons p rest ih =>
    rw [List.map_cons, List.nodup_cons] at h
    unfold reap_first
    by_cases hp : p.pid = pid
    · simp only [hp, if_true, List.map_cons, List.cons.injEq, true_and]
      symm
      calc rest.map (fun q => if q.pid = pid then reap_entry q status else q)
          = rest.map id := by
            apply List.map_congr_left
            intro q hq
            have hne : q.pid ≠ pid := by
              intro heq
              exact h.1 (List.mem_map.mpr ⟨q, hq, by rw [heq, hp]⟩)
            simp [hne]
        _ = rest := List.map_id rest
    · simp only [hp, if_false, List.map_cons, ih h.2]

theorem find?_of_mem (batch : List (Int × Nat)) (h : (batch.map Prod.fst).Nodup)
    (pid : Int) (status : Nat) (hm : (pid, status) ∈ batch) :
    batch.find? (fun n => n.1 == pid) = some (pid, status) := by
  induction batch with
  | nil => cases hm
  | cons n rest ih =>
    rw [List.map_cons, List.nodup_cons] at h
    rcases List.mem_cons.mp hm with heq | hm
    · subst heq
      simp [List.find?_cons]
    · have hne : n.1 ≠ pid := by
        intro heq
        exact h.1 (List.mem_map.mpr ⟨(pid, status), hm, heq.symm⟩)
      have hb : (n.1 == pid) = false := by simpa using hne
      simp only [List.find?_cons, hb]
      exact ih h.2 hm

theorem find?_of_not_mem (batch : List (Int × Nat)) (pid : Int)
    (h : pid ∉ batch.map Prod.fst) :
    batch.find? (fun n => n.1 == pid) = none := by
  rw [List.find?_eq_none]
  intro n hn heq
  exact h (List.mem_map.mpr ⟨n, hn, by simpa using heq⟩)

theorem reap_all_eq_map (batch : List (Int × Nat)) :
    ∀ ps : List ProcessInfo, (ps.map (fun p => p.pid)).Nodup →
      (batch.map Prod.fst).Nodup → (∀ n ∈ batch, 0 < n.1) →
      reap_all ps batch = ps.map (reap_lookup batch) := by
  induction batch with
  | nil =>
    intro ps _ _ _
    have h : reap_lookup [] = id := by funext p; rfl
    simp [reap_all, h]
  | cons n rest ih =>
    intro ps hps hb hpos
    obtain ⟨pid, status⟩ := n
    rw [List.map_cons, List.nodup_cons] at hb
    have hp : pid > 0 := hpos (pid, status) (List.mem_cons_self _ _)
    have hpids : ((reap_first pid status ps).map (fun p => p.pid)) = ps.map (fun p => p.pid) := by
      rw [reap_first_eq_map pid status ps hps, List.map_map]
      apply List.map_congr_left
      intro q _
      by_cases hq : q.pid = pid <;> simp [hq, reap_entry_pid]
    unfold reap_all
    rw [if_pos hp, ih _ (by rw [hpids]; exact hps) hb.2
      (fun n hn => hpos n (List.mem_cons_of_mem _ hn)),
      reap_first_eq_map pid status ps hps, List.map_map]
    apply List.map_congr_left
    intro q _
    by_cases hq : q.pid = pid
    · have h1 : rest.find? (fun n => n.1 == pid) = none := find?_of_not_mem rest pid hb.1
      simp [reap_lookup, hq, reap_entry_pid, h1, List.find?_cons]
    · have hq2 : ¬ pid = q.pid := fun h => hq h.symm
      simp [reap_lookup, hq, hq2, List.find?_cons]

theorem find?_filter_of_imp (q r : Int × Nat → Bool) (h : ∀ x, r x = true → q x = true)
    (l : List (Int × Nat)) : (l.filter q).find? r = l.find? r := by
  induction l with
  | nil => rfl
  | cons x rest ih =>
    cases hq : q x <;> cases hr : r x
    · simp [List.filter_cons, hq, List.find?_cons, hr, ih]
    · rw [h x hr] at hq
      cases hq
    · simp [List.filter_cons, hq, List.find?_cons, hr, ih]
    · simp [List.filter_cons, hq, List.find?_cons, hr]

theorem reap_lookup_known (ps : List ProcessInfo) (batch : List (Int × Nat))
    (p : ProcessInfo) (hp : p ∈ ps) :
    reap_lookup (batch.filter (fun n => decide (n.1 ∈ ps.map (fun q => q.pid)))) p =
      reap_lookup batch p := by
  have hmem : p.pid ∈ ps.map (fun q => q.pid) := List.mem_map.mpr ⟨p, hp, rfl⟩
  unfold reap_lookup
  rw [find?_filter_of_imp]
  intro x hx
  have hx2 : x.1 = p.pid := by simpa using hx
  rw [hx2]
  exact decide_eq_true hmem

/-! ## Arguments `atoi` reads as 0 -/

theorem digits_value_no_digit (rest : List Char)
    (h : (match rest with | [] => true | d :: _ => !isdigit d) = true) :
    digits_value 0 rest = 0 := by
  cases rest with
  | nil => rfl
  | cons d tail =>
    have hd : isdigit d = false := by simpa using h
    simp [digits_value, hd]

theorem atoi_no_number (s : List Char) (h : no_number s = true) : atoi s = 0 := by
  unfold no_number at h
  unfold atoi
  cases hs : s.dropWhile isspace with
  | nil => rfl
  | cons c rest =>
    rw [hs] at h
    simp only at h ⊢
    by_cases h1 : c.toNat = 45
    · have hr := digits_value_no_digit rest (by simpa [h1] using h)
      simp [h1, hr, to_int]
    · by_cases h2 : c.toNat = 43
      · have hr := digits_value_no_digit rest (by simpa [h1, h2] using h)
        simp [h2, hr, to_int]
      · have hc : isdigit c = false := by simpa [h1, h2] using h
        simp [h1, h2, digits_value, hc, to_int]

/-! ## Entries stay in place -/

theorem stable_timeout_sent : Stable (fun _ => True) (fun p => p.timeout_sent = true) where
  reap := by
    intro p status _ h
    unfold reap_entry
    split_ifs <;> exact h
  signal := fun _ _ _ h => h
  arm := fun _ _ _ => rfl

/-- Through any sequence of steps the entries present at the beginning stay where
they are, with their launch and with every maintained property they had; what
is appended comes after them. -/
theorem foldl_step_evolve (hS : Stable V I) (ops : List Op) :
    ∀ s : Sup, (∀ op ∈ ops, ∀ st ∈ op.statuses, V st) →
      ∃ qs new, Evolve I s.processes qs ∧ (ops.foldl step s).processes = qs ++ new := by
  induction ops with
  | nil => intro s _; exact ⟨s.processes, [], Evolve.refl I _, by simp⟩
  | cons op rest ih =>
    intro s hV
    obtain ⟨qs1, hE1, hq1⟩ := step_shape hS s op (hV op (List.mem_cons_self _ _))
    obtain ⟨qs2, new2, hE2, hq2⟩ := ih (step s op) (fun o ho => hV o (List.mem_cons_of_mem _ ho))
    rw [hq1] at hE2
    have ht := List.forall₂_take qs1.length hE2
    rw [List.take_left' rfl] at ht
    refine ⟨qs2.take qs1.length, qs2.drop qs1.length ++ new2, hE1.trans ht, ?_⟩
    rw [List.foldl_cons, hq2, ← List.append_assoc, List.take_append_drop]

theorem evolve_get? {ps qs : List ProcessInfo} (h : Evolve I ps qs) :
    ∀ (i : Nat) (p : ProcessInfo), ps.get? i = some p →
      ∃ q, qs.get? i = some q ∧ ident q = ident p ∧ (I p → I q) := by
  unfold Evolve at h
  induction h with
  | nil => intro i p hp; cases hp
  | @cons a b _ _ hpq _ ih =>
    intro i p hp
    cases i with
    | zero =>
      have hp2 : a = p := by simpa using hp
      subst hp2
      exact ⟨b, rfl, hpq⟩
    | succ i => exact ih i p (by simpa using hp)

theorem get?_append_some (qs new : List ProcessInfo) (i : Nat) (q : ProcessInfo)
    (h : qs.get? i = some q) : (qs ++ new).get? i = some q := by
  obtain ⟨pre, rest, rfl, rfl⟩ := split_at_index qs i q h
  rw [List.append_assoc, List.cons_append]
  exact get?_split pre q (rest ++ new)

theorem get?_map_some (f : ProcessInfo → ProcessInfo) (ps : List ProcessInfo) (i : Nat)
    (p : ProcessInfo) (h : ps.get? i = some p) : (ps.map f).get? i = some (f p) := by
  obtain ⟨pre, rest, rfl, rfl⟩ := split_at_index ps i p h
  rw [List.map_append, List.map_cons]
  have hl : pre.length = (pre.map f).length := by simp
  rw [hl]
  exact get?_split (pre.map f) (f p) (rest.map f)

/-! ## The properties -/

/-- C5: one pass of `check_time_max` sends `SIGTERM` to exactly the entries that are
not terminated, have `timeout_sent` false and have reached `time_max` (in
registry order, one `kill` each); each of them ends with
`signal_value = SIGTERM` and `timeout_sent = true` and every other entry is
unchanged; the pass that follows signals only entries the first one did not;
and whatever steps the supervisor takes afterwards, an entry signalled by the
pass stays in its place with `timeout_sent` true, which excludes it from the
entries a pass signals. -/
theorem check_time_max_signals_due_once (processes : List ProcessInfo) (now time_max : Int) :
    kills (check_time_max processes now time_max).trace =
        (processes.filter (fun p => !p.terminated && !p.timeout_sent &&
          decide (now - p.start_time ≥ time_max))).map (fun p => (p.pid, SIGTERM)) ∧
    (check_time_max processes now time_max).processes =
        processes.map (fun p =>
          if !p.terminated && !p.timeout_sent && decide (now - p.start_time ≥ time_max)
          then { p with signal_value := SIGTERM, timeout_sent := true } else p) ∧
    (∀ now2 time_max2 : Int,
      kills (check_time_max (check_time_max processes now time_max).processes
          now2 time_max2).trace =
        (processes.filter (fun p => !p.terminated && !p.timeout_sent &&
          !decide (now - p.start_time ≥ time_max) &&
          decide (now2 - p.start_time ≥ time_max2))).map (fun p => (p.pid, SIGTERM))) ∧
    (∀ (ops : List Op) (t : List Event) (i : Nat) (p : ProcessInfo),
      processes.get? i = some p →
      (!p.terminated && !p.timeout_sent && decide (now - p.start_time ≥ time_max)) = true →
      ∃ q, (ops.foldl step ⟨(check_time_max processes now time_max).processes, t⟩).processes.get? i
          = some q ∧ q.pid = p.pid ∧ q.timeout_sent = true) := by
  refine ⟨check_time_max_kills processes now time_max, ?_, ?_, ?_⟩
  · rw [check_time_max_eq]
    rfl
  · intro now2 time_max2
    rw [check_time_max_kills, check_time_max_eq]
    simp only
    induction processes with
    | nil => rfl
    | cons p rest ih =>
      simp only [List.map_cons, List.filter_cons]
      by_cases h1 : p.terminated = true
      · simp [check_entry, due, h1, ih]
      · by_cases h2 : p.timeout_sent = true
        · simp [check_entry, due, h1, h2, ih]
        · by_cases h3 : now - p.start_time ≥ time_max
          · simp [check_entry, due, h1, h2, h3, ih]
          · by_cases h4 : now2 - p.start_time ≥ time_max2
            · simp [check_entry, due, h1, h2, h3, h4, ih]
            · simp [check_entry, due, h1, h2, h3, h4, ih]
  · intro ops t i p hp hdue
    obtain ⟨qs, new, hE, hfin⟩ := foldl_step_evolve stable_timeout_sent ops
      ⟨(check_time_max processes now time_max).processes, t⟩ (fun _ _ _ _ => trivial)
    have h0 : (check_time_max processes now time_max).processes.get? i =
        some (check_entry now time_max p) := by
      rw [check_time_max_eq]
      exact get?_map_some _ processes i p hp
    obtain ⟨q, hq, hid, hI⟩ := evolve_get? hE i _ h0
    refine ⟨q, ?_, ?_, ?_⟩
    · rw [hfin]
      exact get?_append_some qs new i q hq
    · have h1 := congrArg Prod.fst hid
      rw [check_entry_ident] at h1
      exact h1
    · apply hI
      have hd : due now time_max p = true := hdue
      simp [check_entry, hd]

theorem check_time_max_signals_due_once_witness :
    one_running.get? 0 = some ⟨100, "sleep".toList, 0, -1, -1, false, false⟩ ∧
    (!false && !false && decide ((3 : Int) - 0 ≥ 3)) = true ∧
    ∃ q, ([timeout_one 4, Op.check 9 3].foldl step
        ⟨(check_time_max one_running 3 3).processes, []⟩).processes.get? 0 = some q ∧
      q.pid = 100 ∧ q.timeout_sent = true :=
  ⟨by decide, by decide,
    (check_time_max_signals_due_once one_running 3 3).2.2.2 [timeout_one 4, Op.check 9 3] [] 0
      ⟨100, "sleep".toList, 0, -1, -1, false, false⟩ (by decide) (by decide)⟩

/-- C8: `show_info` leaves the registry alone and prints, after the two header
lines, one row per entry with `terminated` false, in registry order, made of pid,
executable, elapsed seconds, `exit_code` and `signal_value` as stored (so -1 for
a value never set), and no row for a terminated entry; the line saying that
nothing is running is printed exactly when no entry has `terminated` false. -/
theorem show_info_lists_active (processes : List ProcessInfo) (now : Int) :
    (show_info processes now).processes = processes ∧
    prints (show_info processes now).trace =
      [Line.info_title, Line.info_header] ++
      (processes.filter (fun p => !p.terminated)).map (fun p =>
        Line.info_row p.pid p.executable (now - p.start_time) p.exit_code p.signal_value) ++
      (if processes.all (fun p => p.terminated) then [Line.no_active] else []) ∧
    (Line.no_active ∈ prints (show_info processes now).trace ↔
      ∀ p ∈ processes, p.terminated = true) ∧
    kills (show_info processes now).trace = [] := by
  have hp : prints (show_info processes now).trace =
      [Line.info_title, Line.info_header] ++
      (processes.filter (fun p => !p.terminated)).map (info_row now) ++
      (if processes.all (fun p => p.terminated) then [Line.no_active] else []) := by
    rw [show_info_eq]
    simp only [prints_append, prints_map_print]
    congr 1
    by_cases h : processes.any (fun p => !p.terminated) = true
    · have h2 : processes.all (fun p => p.terminated) = false := by
        simp only [List.any_eq_true, Bool.not_eq_true'] at h
        obtain ⟨x, hx, hx2⟩ := h
        rw [List.all_eq_false]
        exact ⟨x, hx, by simp [hx2]⟩
      simp [h, h2, prints]
    · have h2 : processes.all (fun p => p.terminated) = true := by
        simp only [List.any_eq_true, Bool.not_eq_true', not_exists, not_and,
          Bool.not_eq_false] at h
        rw [List.all_eq_true]
        exact h
      simp only [Bool.not_eq_true] at h
      simp [h, h2, prints]
  refine ⟨by rw [show_info_eq], hp, ?_, ?_⟩
  · rw [hp]
    by_cases h : processes.all (fun p => p.terminated) = true
    · simp only [h, if_true]
      rw [List.all_eq_true] at h
      exact ⟨fun _ => h, fun _ => by simp⟩
    · simp only [h]
      have h2 : ¬ ∀ p ∈ processes, p.terminated = true := by
        rw [List.all_eq_true] at h
        exact h
      simp [h2, info_row]
  · rw [show_info_eq]
    simp only [kills_append]
    have h1 : kills ((processes.filter (fun p => !p.terminated)).map
        (fun p => Event.print (info_row now p))) = [] := by
      induction processes.filter (fun p => !p.terminated) with
      | nil => rfl
      | cons p rest ih => simp [kills]
    rw [h1]
    cases processes.any (fun p => !p.terminated) <;> simp [kills]

/-- C1: in every run of the supervisor from start-up the registry holds at most 10
entries; and on a registry that holds 10 entries `start_process`, called directly
or through the `start` command, returns the registry as it was (same entries,
same fields) having only printed the capacity message: `fork` is not called. -/
theorem registry_within_capacity :
    (∀ ops : List Op, (run ops).processes.length ≤ 10) ∧
    (∀ (processes : List ProcessInfo) (executable : List Char) (args : List (List Char))
        (fork_result now : Int), processes.length = 10 →
      start_process processes executable args fork_result now =
        ⟨processes, [Event.print Line.max_processes]⟩) ∧
    (∀ (processes : List ProcessInfo) (executable : List Char) (args : List (List Char))
        (env : Env), processes.length = 10 →
      execute_command processes ("start".toList :: executable :: args) env =
        ⟨processes, [Event.print Line.max_processes]⟩) := by
  have hstart : ∀ (processes : List ProcessInfo) (executable : List Char)
      (args : List (List Char)) (fork_result now : Int), processes.length = 10 →
      start_process processes executable args fork_result now =
        ⟨processes, [Event.print Line.max_processes]⟩ := by
    intro processes executable args fork_result now h
    simp [start_process, h, MAX_PROCESSES]
  refine ⟨?_, hstart, ?_⟩
  · intro ops
    exact (foldl_step_invariant stable_trivial (fun _ => trivial) ops init
      (fun _ _ _ _ => trivial)
      (fun _ _ => trivial) (by simp [init])).2
  · intro processes executable args env h
    simp only [execute_command, if_true]
    exact hstart processes executable _ _ _ h

theorem registry_within_capacity_witness :
    (run ten_starts).processes.length = 10 ∧
    start_process (run ten_starts).processes "ls".toList ["ls".toList] 555 60 =
      ⟨(run ten_starts).processes, [Event.print Line.max_processes]⟩ :=
  ⟨by decide, registry_within_capacity.2.1 _ _ _ _ _ (by decide)⟩

/-- C3: in every registry reached from start-up by commands, passes of
`check_time_max`, runs of `sigchld_handler` and of `sigint_handler` and the two
signalling loops of `handle_quit`, the reaper being handed only statuses of
normal exits and of deaths by signal, every entry with `terminated` true has
exactly one of `exit_code` and `signal_value` different from -1. -/
theorem terminated_has_one_outcome (ops : List Op)
    (hV : ∀ op ∈ ops, ∀ status ∈ op.statuses,
      WIFEXITED status = true ∨ WIFSIGNALED status = true) :
    ∀ p ∈ (run ops).processes, p.terminated = true →
      (p.exit_code ≠ -1 ∧ p.signal_value = -1) ∨ (p.exit_code = -1 ∧ p.signal_value ≠ -1) :=
  (foldl_step_invariant stable_consistent (fun l h => by simp [fresh] at h) ops init hV
    (fun _ hp => by simp [init] at hp) (by simp [init])).1

theorem terminated_has_one_outcome_witness :
    (∀ op ∈ [start_sleep 100 0, Op.sigchld [(100, 0)], start_sleep 101 5, Op.check 9 3,
        Op.sigchld [(101, 15)]],
      ∀ status ∈ op.statuses, WIFEXITED status = true ∨ WIFSIGNALED status = true) ∧
    (∀ p ∈ (run [start_sleep 100 0, Op.sigchld [(100, 0)], start_sleep 101 5, Op.check 9 3,
        Op.sigchld [(101, 15)]]).processes, p.terminated = true →
      (p.exit_code ≠ -1 ∧ p.signal_value = -1) ∨ (p.exit_code = -1 ∧ p.signal_value ≠ -1)) :=
  ⟨by decide, terminated_has_one_outcome _ (by decide)⟩

/-- C7: whatever the run before it, the shutdown (the `quit` command or
`sigint_handler`) ends with a report of exactly one line per entry of the
registry, in registry order, and the line of an entry is made of that entry's
pid, its stored name, the seconds elapsed since its start time, its `exit_code`
and its `signal_value`; the entries of that registry are, in order, the
successful launches of the run (pid, name cut to 255 characters, start time),
those terminated before the shutdown included; and a step never removes,
reorders or rewrites the launch of an entry: it only appends. -/
theorem final_report_lists_every_launch (ops : List Op) (env : Env) :
    (∀ r ∈ [execute_command (run ops).processes ["quit".toList] env,
          sigint_handler (run ops).processes env.during_sleep env.clock],
      r.processes.map (fun p => (p.pid, p.executable, p.start_time)) = launches ops ∧
      (prints r.trace).filter Line.is_stats =
        r.processes.enum.map (fun ip =>
          Line.stats ip.2.pid ip.2.executable (env.clock ip.1 - ip.2.start_time)
            ip.2.exit_code ip.2.signal_value)) ∧
    (∀ op : Op,
      (step (run ops) op).processes.map (fun p => (p.pid, p.executable, p.start_time)) =
        (run ops).processes.map (fun p => (p.pid, p.executable, p.start_time)) ++
          op.launch (run ops).processes.length) := by
  have hident : (fun p : ProcessInfo => (p.pid, p.executable, p.start_time)) = ident := rfl
  have hstats : (fun ip : Nat × ProcessInfo =>
      Line.stats ip.2.pid ip.2.executable (env.clock ip.1 - ip.2.start_time)
        ip.2.exit_code ip.2.signal_value) =
      (fun ip => print_process_stats ip.2 (env.clock ip.1)) := rfl
  rw [hident, hstats]
  have hE := (evolve_handle_quit stable_trivial (run ops).processes env.during_sleep
    env.clock (fun _ _ _ _ => trivial)).ident
  have hrun : (run ops).processes.map ident = launches ops := by
    have h := foldl_step_ident ops init
    simpa [run, launches, init] using h
  have hrep := handle_quit_report (run ops).processes env.during_sleep env.clock
  refine ⟨?_, fun op => step_ident (run ops) op⟩
  intro r hr
  simp only [List.mem_cons, List.mem_singleton, List.not_mem_nil, or_false] at hr
  rcases hr with rfl | rfl
  · rw [execute_command_quit]
    simp only [Sup.emit, filter_stats_emit_exit]
    exact ⟨hE.trans hrun, hrep⟩
  · simp only [sigint_handler, Sup.andThen, Sup.emit, filter_stats_emit_exit]
    refine ⟨hE.trans hrun, ?_⟩
    rw [prints_append, List.filter_append]
    exact hrep

theorem final_report_lists_every_launch_witness :
    sigint_handler (run [start_sleep 100 0, Op.sigchld [(100, 0)], start_sleep 101 5]).processes
        (sample_env 0 20).during_sleep (sample_env 0 20).clock ∈
      [execute_command (run [start_sleep 100 0, Op.sigchld [(100, 0)],
          start_sleep 101 5]).processes ["quit".toList] (sample_env 0 20),
        sigint_handler (run [start_sleep 100 0, Op.sigchld [(100, 0)],
          start_sleep 101 5]).processes (sample_env 0 20).during_sleep (sample_env 0 20).clock] ∧
    ((sigint_handler (run [start_sleep 100 0, Op.sigchld [(100, 0)], start_sleep 101 5]).processes
        (sample_env 0 20).during_sleep (sample_env 0 20).clock).processes.map
          (fun p => (p.pid, p.executable, p.start_time)) =
      launches [start_sleep 100 0, Op.sigchld [(100, 0)], start_sleep 101 5] ∧
    (prints (sigint_handler (run [start_sleep 100 0, Op.sigchld [(100, 0)],
        start_sleep 101 5]).processes (sample_env 0 20).during_sleep
          (sample_env 0 20).clock).trace).filter Line.is_stats =
      (sigint_handler (run [start_sleep 100 0, Op.sigchld [(100, 0)],
        start_sleep 101 5]).processes (sample_env 0 20).during_sleep
          (sample_env 0 20).clock).processes.enum.map (fun ip =>
        Line.stats ip.2.pid ip.2.executable ((sample_env 0 20).clock ip.1 - ip.2.start_time)
          ip.2.exit_code ip.2.signal_value)) :=
  ⟨List.mem_cons_of_mem _ (List.mem_singleton.mpr rfl),
    (final_report_lists_every_launch [start_sleep 100 0, Op.sigchld [(100, 0)],
      start_sleep 101 5] (sample_env 0 20)).1 _
        (List.mem_cons_of_mem _ (List.mem_singleton.mpr rfl))⟩

/-- The final report of a concrete run, line by line: pid 100 exited with code 0
before the shutdown, pid 101 was still running and ends with the signal 9 of
the second loop of `handle_quit`; both are reported, in launch order. -/
theorem final_report_example :
    (prints (execute_command
        (run [start_sleep 100 0, Op.sigchld [(100, 0)], start_sleep 101 5]).processes
        ["quit".toList] (sample_env 0 20)).trace).filter Line.is_stats =
      [Line.stats 100 "sleep".toList 20 0 (-1), Line.stats 101 "sleep".toList 15 (-1) 9] ∧
    launches [start_sleep 100 0, Op.sigchld [(100, 0)], start_sleep 101 5] =
      [(100, "sleep".toList, 0), (101, "sleep".toList, 5)] := by
  constructor <;> decide

/-- C4: on a registry without repeated pids, one run of `sigchld_handler` over a
queue of notifications with distinct (positive) pids empties the queue and
keeps every entry in place; an entry whose pid is queued with a status ends
with `terminated` true, its pid, name, start time and `timeout_sent` kept, and
with `exit_code = WEXITSTATUS`, `signal_value = -1` after a normal exit, or
`exit_code = -1`, `signal_value = WTERMSIG` after a death by signal; an entry
whose pid is not queued is unchanged; and the notifications whose pid is in no
entry make no difference to the resulting registry. -/
theorem reaper_reconciles_whole_batch (processes : List ProcessInfo)
    (batch : List (Int × Nat))
    (hreg : (processes.map (fun p => p.pid)).Nodup)
    (hbatch : (batch.map Prod.fst).Nodup)
    (hpos : ∀ n ∈ batch, 0 < n.1) :
    (sigchld_handler processes batch).2 = [] ∧
    (sigchld_handler processes batch).1.processes.length = processes.length ∧
    (∀ (i : Nat) (p : ProcessInfo), processes.get? i = some p →
      (∀ status, (p.pid, status) ∈ batch →
        ∃ q, (sigchld_handler processes batch).1.processes.get? i = some q ∧
          q.terminated = true ∧ q.pid = p.pid ∧ q.executable = p.executable ∧
          q.start_time = p.start_time ∧ q.timeout_sent = p.timeout_sent ∧
          (WIFEXITED status = true →
            q.exit_code = WEXITSTATUS status ∧ q.signal_value = -1) ∧
          (WIFSIGNALED status = true →
            q.exit_code = -1 ∧ q.signal_value = WTERMSIG status)) ∧
      (p.pid ∉ batch.map Prod.fst →
        (sigchld_handler processes batch).1.processes.get? i = some p)) ∧
    (sigchld_handler processes
        (batch.filter (fun n => decide (n.1 ∈ processes.map (fun p => p.pid))))).1.processes =
      (sigchld_handler processes batch).1.processes := by
  have hmap := reap_all_eq_map batch processes hreg hbatch hpos
  refine ⟨sigchld_handler_drains batch processes hpos, ?_, ?_, ?_⟩
  · rw [sigchld_handler_processes, hmap, List.length_map]
  · intro i p hi
    have hget : (sigchld_handler processes batch).1.processes.get? i =
        some (reap_lookup batch p) := by
      rw [sigchld_handler_processes, hmap, List.get?_eq_getElem?, List.getElem?_map,
        ← List.get?_eq_getElem?, hi]
      rfl
    constructor
    · intro status hm
      refine ⟨reap_lookup batch p, hget, ?_⟩
      have hl : reap_lookup batch p = reap_entry p status := by
        simp [reap_lookup, find?_of_mem batch hbatch p.pid status hm]
      rw [hl]
      have hx : WIFEXITED status = true → WIFSIGNALED status = true → False := by
        unfold WIFEXITED WIFSIGNALED
        intro h1 h2
        simp only [beq_iff_eq] at h1
        simp [h1] at h2
      refine ⟨?_, ?_, ?_, ?_, ?_, ?_, ?_⟩
      · unfold reap_entry; split_ifs <;> rfl
      · unfold reap_entry; split_ifs <;> rfl
      · unfold reap_entry; split_ifs <;> rfl
      · unfold reap_entry; split_ifs <;> rfl
      · unfold reap_entry; split_ifs <;> rfl
      · intro h1
        simp [reap_entry, h1]
      · intro h2
        have h1 : WIFEXITED status = false := by
          cases h : WIFEXITED status
          · rfl
          · exact absurd h2 (fun h2 => hx h h2)
        simp [reap_entry, h1, h2]
    · intro hn
      rw [hget]
      simp [reap_lookup, find?_of_not_mem batch p.pid hn]
  · rw [sigchld_handler_processes, sigchld_handler_processes, hmap,
      reap_all_eq_map _ processes hreg
        ((List.filter_sublist batch).map Prod.fst |>.nodup hbatch)
        (fun n hn => hpos n (List.mem_of_mem_filter hn))]
    apply List.map_congr_left
    intro p hp
    exact reap_lookup_known processes batch p hp

theorem reaper_reconciles_whole_batch_witness :
    (two_running.map (fun p => p.pid)).Nodup ∧
    ([((101 : Int), 768), (555, 0), (100, 9)].map Prod.fst).Nodup ∧
    (∀ n ∈ [((101 : Int), 768), (555, 0), (100, 9)], 0 < n.1) ∧
    (sigchld_handler two_running [(101, 768), (555, 0), (100, 9)]).2 = [] ∧
    (sigchld_handler two_running [(101, 768), (555, 0), (100, 9)]).1.processes.length =
      two_running.length :=
  ⟨by decide, by decide, by decide,
    (reaper_reconciles_whole_batch two_running [(101, 768), (555, 0), (100, 9)]
      (by decide) (by decide) (by decide)).1,
    (reaper_reconciles_whole_batch two_running [(101, 768), (555, 0), (100, 9)]
      (by decide) (by decide) (by decide)).2.1⟩

/-- C10 fails on the code: `sigchld_handler` rewrites the first entry whose pid
matches, terminated or not. Launch pid 100, reap it (exit code 0), launch again
with the pid reused, then reap pid 100 killed by signal 9: the old, already
terminated entry loses its exit code and gets the signal, and the running entry
stays with `terminated` false. -/
theorem reaper_rewrites_stale_entry_on_pid_reuse :
    (run [start_sleep 100 0, Op.sigchld [(100, 0)], start_sleep 100 5]).processes =
      [{ pid := 100, executable := "sleep".toList, start_time := 0, exit_code := 0,
         signal_value := -1, terminated := true, timeout_sent := false },
       { pid := 100, executable := "sleep".toList, start_time := 5, exit_code := -1,
         signal_value := -1, terminated := false, timeout_sent := false }] ∧
    (run [start_sleep 100 0, Op.sigchld [(100, 0)], start_sleep 100 5,
        Op.sigchld [(100, 9)]]).processes =
      [{ pid := 100, executable := "sleep".toList, start_time := 0, exit_code := -1,
         signal_value := 9, terminated := true, timeout_sent := false },
       { pid := 100, executable := "sleep".toList, start_time := 5, exit_code := -1,
         signal_value := -1, terminated := false, timeout_sent := false }] := by
  constructor <;> decide

/-- Whatever the supervisor's registry becomes afterwards, every child that
`terminate_process` forks for an entry sends `SIGKILL` to that entry's pid: the
child was forked inside `if (!processes[index].terminated)` and its copy of the
entry never changes. -/
theorem escalation_child_always_kills (processes : List ProcessInfo) (index : Nat)
    (p : ProcessInfo) (hp : processes.get? index = some p) (ht : p.terminated = false) :
    escalations (terminate_process processes index SIGTERM).trace =
      [⟨assign processes index (fun q => { q with signal_value := SIGTERM }), index⟩] ∧
    ∀ child ∈ escalations (terminate_process processes index SIGTERM).trace,
      kills (escalation_child child) = [(p.pid, SIGKILL)] := by
  obtain ⟨pre, rest, rfl, rfl⟩ := split_at_index processes index p hp
  have he : escalations (terminate_process (pre ++ p :: rest) pre.length SIGTERM).trace =
      [⟨assign (pre ++ p :: rest) pre.length (fun q => { q with signal_value := SIGTERM }),
        pre.length⟩] := by
    rw [terminate_process_split, assign_split]
    simp [ht, escalations]
  refine ⟨he, ?_⟩
  intro child hc
  rw [he, List.mem_singleton] at hc
  subst hc
  rw [assign_split]
  unfold escalation_child
  simp only [get?_split]
  simp [ht, kills]

/-- C2 fails on the code: the child forked by `terminate_process` tests its own
copy of `processes`, taken at the `fork`. After `start sleep 10` (pid 100) and
`timeout 1` the entry is sent `SIGTERM` and one child is forked; the reaper then
marks the entry terminated in the supervisor's registry; the child, when its
five seconds are over, still sends `SIGKILL` to pid 100. -/
theorem escalation_child_ignores_reaper :
    kills (run [start_sleep 100 0, timeout_one 1]).trace = [(100, SIGTERM)] ∧
    (run [start_sleep 100 0, timeout_one 1, Op.sigchld [(100, 15)]]).processes.map
      (fun p => p.terminated) = [true] ∧
    (escalations (run [start_sleep 100 0, timeout_one 1, Op.sigchld [(100, 15)]]).trace).map
      (fun child => kills (escalation_child child)) = [[(100, SIGKILL)]] := by
  refine ⟨by decide, by decide, by decide⟩

/-- C6 fails on the code: `handle_timeout` neither tests nor sets `timeout_sent`.
Two `timeout 1` commands send `SIGTERM` to the running entry twice and leave
`timeout_sent` false; and after a pass of `check_time_max` has signalled the
entry and set `timeout_sent`, a `timeout 1` command signals it again. -/
theorem timeout_command_repeats_sigterm :
    kills (run [start_sleep 100 0, timeout_one 1, timeout_one 2]).trace =
      [(100, SIGTERM), (100, SIGTERM)] ∧
    (run [start_sleep 100 0, timeout_one 1, timeout_one 2]).processes.map
      (fun p => p.timeout_sent) = [false] ∧
    (run [start_sleep 100 0, Op.check 3 3]).processes.map (fun p => p.timeout_sent) = [true] ∧
    kills (run [start_sleep 100 0, Op.check 3 3, timeout_one 4]).trace =
      [(100, SIGTERM), (100, SIGTERM)] := by
  refine ⟨by decide, by decide, by decide, by decide⟩

/-- C9 fails on the code for an argument such as `3abc`: `atoi` reads the leading
3, so with a running entry the command `timeout 3abc` sends `SIGTERM`, forks an
escalation child and writes `signal_value`. -/
theorem timeout_accepts_numeric_prefix :
    atoi "3abc".toList = 3 ∧
    kills (execute_command one_running ["timeout".toList, "3abc".toList]
      (sample_env 0 3)).trace = [(100, SIGTERM)] ∧
    (escalations (execute_command one_running ["timeout".toList, "3abc".toList]
      (sample_env 0 3)).trace).length = 1 ∧
    (execute_command one_running ["timeout".toList, "3abc".toList]
      (sample_env 0 3)).processes ≠ one_running := by
  refine ⟨by decide, by decide, by decide, by decide⟩

/-- C9 as amended: the `timeout` command sends no signal, forks no escalation child
and leaves the registry unchanged when its argument is missing, when `atoi` of
its argument is at most 0, or when no entry has `terminated` false; and `atoi`
is 0 for every argument that, after white space and an optional sign, does not
go on with a decimal digit (such as `abc`). -/
theorem timeout_rejections (processes : List ProcessInfo) (env : Env) :
    (execute_command processes ["timeout".toList] env =
      ⟨processes, [Event.print Line.missing_timeout]⟩) ∧
    (∀ (arg : List Char) (rest : List (List Char)), atoi arg ≤ 0 →
      execute_command processes ("timeout".toList :: arg :: rest) env =
        ⟨processes, [Event.print Line.nonpositive_timeout]⟩) ∧
    (∀ (arg : List Char) (rest : List (List Char)), no_number arg = true →
      execute_command processes ("timeout".toList :: arg :: rest) env =
        ⟨processes, [Event.print Line.nonpositive_timeout]⟩) ∧
    (∀ (arg : List Char) (rest : List (List Char)), 0 < atoi arg →
      (∀ p ∈ processes, p.terminated = true) →
      execute_command processes ("timeout".toList :: arg :: rest) env =
        ⟨processes, [Event.print Line.timeout_no_active]⟩) := by
  have hcmd : ∀ (arg : List Char) (rest : List (List Char)),
      execute_command processes ("timeout".toList :: arg :: rest) env =
        if atoi arg ≤ 0 then ⟨processes, [Event.print Line.nonpositive_timeout]⟩
        else handle_timeout processes (atoi arg) env.during_sleep env.now := by
    intro arg rest
    simp [execute_command]
  refine ⟨by simp [execute_command], ?_, ?_, ?_⟩
  · intro arg rest h
    rw [hcmd, if_pos h]
  · intro arg rest h
    rw [hcmd, if_pos (by rw [atoi_no_number arg h])]
  · intro arg rest h hall
    rw [hcmd, if_neg (by omega)]
    unfold handle_timeout
    rw [any_active_eq]
    have hany : processes.any (fun p => !p.terminated) = false := by
      rw [List.any_eq_false]
      intro p hp
      simp [hall p hp]
    simp [hany]

theorem timeout_rejections_witness :
    atoi "-5".toList ≤ 0 ∧ no_number "abc".toList = true ∧
    execute_command one_running ["timeout".toList, "-5".toList] (sample_env 0 3) =
      ⟨one_running, [Event.print Line.nonpositive_timeout]⟩ ∧
    execute_command one_running ["timeout".toList, "abc".toList] (sample_env 0 3) =
      ⟨one_running, [Event.print Line.nonpositive_timeout]⟩ ∧
    0 < atoi "3".toList ∧ (∀ p ∈ one_reaped, p.terminated = true) ∧
    execute_command one_reaped ["timeout".toList, "3".toList] (sample_env 0 3) =
      ⟨one_reaped, [Event.print Line.timeout_no_active]⟩ :=
  ⟨by decide, by decide,
    (timeout_rejections one_running (sample_env 0 3)).2.1 _ [] (by decide),
    (timeout_rejections one_running (sample_env 0 3)).2.2.1 _ [] (by decide),
    by decide, by decide,
    (timeout_rejections one_reaped (sample_env 0 3)).2.2.2 _ [] (by decide) (by decide)⟩

end DCCAdmin
